import Mathlib

/-!
Shallow embedding of the classroom-deduplication and referential-integrity
repair engine of `src/scripts/fix-case-insensitive-classname-index.js`.

Modelling conventions:
* Mongo documents become Lean structures; the four collections become lists
  held in a `DB` record, iterated in natural (list) order exactly where the
  script relies on natural order (`find`, `findOne`, `updateOne`, `deleteOne`).
* Document ids are `Nat` (Mongo ObjectIds are opaque; only equality and
  `String(...)` comparison are used by the script).
* A JavaScript date-ish field (`updatedAt`, `createdAt`) is modelled by `TS`:
  `missing` is any falsy value (absent, null, empty string, numeric 0),
  `invalid` is a truthy value that does not parse to a finite time, and
  `t v` is a value parsing to the finite millisecond time `v : Int`
  (`getTime` may be negative for pre-1970 dates).
* `new Date()` inside the run is modelled by an explicit parameter `now`.
* The Mongo aggregation normalisation `$toLower ($trim className)` and the
  JavaScript `String.prototype.trim` / `toLowerCase` are both modelled with
  `strTrim` / `strLower` below (character-wise lowering, whitespace
  stripping at both ends).
* `updateOne` / `deleteOne` touch the first matching document
  (`updateFirst` / `deleteFirst`); `updateMany` touches all matching
  documents and reports `modifiedCount` as the number of matched documents
  actually changed by the update.
* Mongo's `$group` emits groups in unspecified order; the model fixes the
  order of duplicate groups to first appearance of the normalised name in
  the collection, with each group's members in collection order (the order
  `$push` accumulates them).
-/

set_option autoImplicit false

namespace ClassDedupe

/-- Model of a JavaScript date-like field value: absent/falsy, truthy but
unparseable, or a finite millisecond timestamp. -/
inductive TS where
  | missing
  | invalid
  | t (v : Int)
  deriving DecidableEq, Repr

/-- Embeds `asTime` (script lines 12-15): `new Date(value || 0).getTime()`
with non-finite results mapped to 0.  A falsy value yields time 0, an
unparseable value yields NaN hence 0, a parseable value yields its time. -/
def asTime : TS → Int
  | .missing => 0
  | .invalid => 0
  | .t v => v

/-- JavaScript truthiness of the modelled date-like value. -/
def TS.truthy : TS → Bool
  | .missing => false
  | .invalid => true
  | .t _ => true

/-- Whitespace test used by the model of string trimming. -/
def isWs (c : Char) : Bool :=
  c == ' ' || c == '\t' || c == '\n' || c == '\r'

/-- Model of JavaScript `String.prototype.trim` (and of Mongo `$trim` with
default characters): strip whitespace from both ends. -/
def strTrim (s : String) : String :=
  ⟨((s.data.dropWhile isWs).reverse.dropWhile isWs).reverse⟩

/-- Model of JavaScript `String.prototype.toLowerCase` (and of Mongo
`$toLower`): lower-case every character. -/
def strLower (s : String) : String :=
  ⟨s.data.map Char.toLower⟩

/-- Subject subdocument of a classroom; `name` and `code` may be absent. -/
structure Subject where
  name : Option String
  code : Option String
  deriving DecidableEq, Repr

/-- Embeds `subjectKey` (script lines 17-18): the merge identity of a
subject, built from its trimmed lowercased name and code. -/
def subjectKey (s : Subject) : String :=
  strLower (strTrim (s.name.getD "")) ++ "::" ++ strLower (strTrim (s.code.getD ""))

/-- Classroom document, restricted to the fields the script projects and
uses (`_id`, `className`, `subjects`, `totalStudents`, `createdAt`). -/
structure Classroom where
  _id : Nat
  className : String
  subjects : Option (List Subject)
  totalStudents : Option Nat
  createdAt : TS
  deriving DecidableEq, Repr

/-- The normalised (deduplication) form of a class name, as computed by the
aggregation stage `norm: { $toLower: { $trim: { input: className } } }`. -/
def normName (s : String) : String :=
  strLower (strTrim s)

/-- Attendance document: owner classroom, calendar date (opaque, equality
only), optional list of periods (payload opaque, modelled as `Nat`), and an
update timestamp. -/
structure Attendance where
  _id : Nat
  classId : Nat
  date : Nat
  periods : Option (List Nat)
  updatedAt : TS
  deriving DecidableEq, Repr

/-- Report or announcement document: only its classroom foreign key is ever
read or written by the script. -/
structure RefDoc where
  _id : Nat
  classId : Nat
  deriving DecidableEq, Repr

/-- Index descriptor as the script inspects it: name, uniqueness, and
optional collation (locale, strength). -/
structure IndexSpec where
  name : String
  unique : Bool
  collation : Option (String × Nat)
  deriving DecidableEq, Repr

/-- The database state: the four collections and the index set of the
classrooms collection. -/
structure DB where
  classrooms : List Classroom
  attendances : List Attendance
  reports : List RefDoc
  announcements : List RefDoc
  indexes : List IndexSpec
  deriving DecidableEq, Repr

/-- Per-classroom reference counts (result of `countRefs`). -/
structure Refs where
  attendance : Nat
  reports : Nat
  announcements : Nat
  total : Nat
  deriving DecidableEq, Repr

/-- Audit entry pushed onto `summary.actions` for each removed duplicate. -/
structure ActionEntry where
  normalizedName : String
  keptClassId : Nat
  removedClassId : Nat
  keptClassName : String
  removedClassName : String
  refsMoved : Refs
  deriving DecidableEq, Repr

/-- The script's structured summary accumulator. -/
structure Summary where
  duplicateGroupsFound : Nat
  duplicateClassroomsDeleted : Nat
  reportsMoved : Nat
  announcementsMoved : Nat
  attendanceMoved : Nat
  attendanceReplaced : Nat
  attendanceKeptPrimary : Nat
  attendanceRemovedFromDuplicate : Nat
  indexDropped : Option String
  indexCreated : Option String
  indexStatus : Option String
  actions : List ActionEntry
  finalIndexes : Option (List IndexSpec)
  deriving DecidableEq, Repr

/-- The summary as initialised at the top of `run` (script lines 110-123). -/
def initSummary : Summary :=
  { duplicateGroupsFound := 0
    duplicateClassroomsDeleted := 0
    reportsMoved := 0
    announcementsMoved := 0
    attendanceMoved := 0
    attendanceReplaced := 0
    attendanceKeptPrimary := 0
    attendanceRemovedFromDuplicate := 0
    indexDropped := none
    indexCreated := none
    indexStatus := none
    actions := []
    finalIndexes := none }

/-- Mongo `updateOne`: apply `f` to the first element satisfying `p`. -/
def updateFirst {α : Type} (p : α → Bool) (f : α → α) : List α → List α
  | [] => []
  | x :: xs => if p x then f x :: xs else x :: updateFirst p f xs

/-- Mongo `deleteOne`: remove the first element satisfying `p`. -/
def deleteFirst {α : Type} (p : α → Bool) : List α → List α
  | [] => []
  | x :: xs => if p x then xs else x :: deleteFirst p xs

/-- Mongo `updateMany`: apply `f` to every element satisfying `p`, returning
the new list and the `modifiedCount` (matched documents actually changed). -/
def updateManyCount {α : Type} [DecidableEq α] (p : α → Bool) (f : α → α)
    (l : List α) : List α × Nat :=
  (l.map (fun x => if p x then f x else x),
   (l.filter (fun x => p x && decide (f x ≠ x))).length)

/-- First-occurrence deduplication of a list of keys; fixes the (otherwise
unspecified) emission order of Mongo `$group` keys. -/
def firstDedup : List String → List String
  | [] => []
  | n :: ns => n :: (firstDedup ns).filter (fun m => m ≠ n)

/-- Members of the `$group` bucket for normalised name `n`, in collection
order (the order `$push` sees the documents). -/
def groupDocs (cls : List Classroom) (n : String) : List Classroom :=
  cls.filter (fun c => normName c.className == n)

/-- The duplicate-name groups found by the aggregation of `run` (script
lines 131-152): buckets keyed by normalised name with more than one member. -/
def dupGroups (cls : List Classroom) : List (String × List Classroom) :=
  ((firstDedup (cls.map (fun c => normName c.className))).map
      (fun n => (n, groupDocs cls n))).filter
    (fun g => g.2.length > 1)

/-- Embeds `countRefs` (script lines 20-33): per-collection counts of
documents whose `classId` equals the given id, plus their sum. -/
def countRefs (db : DB) (classId : Nat) : Refs :=
  let a := (db.attendances.filter (fun d => d.classId == classId)).length
  let r := (db.reports.filter (fun d => d.classId == classId)).length
  let n := (db.announcements.filter (fun d => d.classId == classId)).length
  { attendance := a, reports := r, announcements := n, total := a + r + n }

/-- A group member annotated with its reference counts (`{...doc, refs}`). -/
structure GroupDoc where
  doc : Classroom
  refs : Refs
  deriving DecidableEq, Repr

/-- Number of subjects of a member, with the `Array.isArray` guard. -/
def subjectsLen (d : GroupDoc) : Nat :=
  (d.doc.subjects.getD []).length

/-- The comparator passed to `sort` in `chooseCanonical` (script lines
36-42): descending total reference count, then descending subject count,
then ascending creation time. -/
def cmpDocs (a b : GroupDoc) : Int :=
  if b.refs.total ≠ a.refs.total then (b.refs.total : Int) - (a.refs.total : Int)
  else if subjectsLen b ≠ subjectsLen a then (subjectsLen b : Int) - (subjectsLen a : Int)
  else asTime a.doc.createdAt - asTime b.doc.createdAt

/-- Embeds `chooseCanonical` (script lines 35-43): the head of the stable
sort of the members under `cmpDocs`, i.e. the first member in input order
that no other member strictly precedes (ES2019 `Array.prototype.sort` is
stable and the comparator is consistent, so `sort(cmp)[0]` is the first
minimum). -/
def chooseCanonical : List GroupDoc → Option GroupDoc
  | [] => none
  | x :: xs => some (xs.foldl (fun best c => if cmpDocs c best < 0 then c else best) x)

/-- One iteration of the `migrateAttendance` loop (script lines 49-76) on
the current attendance collection and summary, for one snapshot record of
the duplicate classroom. -/
def migrateStep (toId : Nat) (now : Int) (p : List Attendance × Summary)
    (record : Attendance) : List Attendance × Summary :=
  let atts := p.1
  let s := p.2
  match atts.find? (fun a => a.classId == toId && a.date == record.date) with
  | none =>
    (updateFirst (fun a => a._id == record._id) (fun a => { a with classId := toId }) atts,
     { s with attendanceMoved := s.attendanceMoved + 1 })
  | some existing =>
    let step :=
      if asTime record.updatedAt > asTime existing.updatedAt then
        (updateFirst (fun a => a._id == existing._id)
          (fun a =>
            { a with
              periods := some (record.periods.getD [])
              updatedAt := if record.updatedAt.truthy then record.updatedAt else TS.t now })
          atts,
         { s with attendanceReplaced := s.attendanceReplaced + 1 })
      else (atts, { s with attendanceKeptPrimary := s.attendanceKeptPrimary + 1 })
    (deleteFirst (fun a => a._id == record._id) step.1,
     { step.2 with attendanceRemovedFromDuplicate := step.2.attendanceRemovedFromDuplicate + 1 })

/-- Embeds `migrateAttendance` (script lines 45-77): snapshot the duplicate
classroom's attendance records, then process each in order. -/
def migrateAttendance (atts : List Attendance) (fromId toId : Nat) (now : Int)
    (s : Summary) : List Attendance × Summary :=
  (atts.filter (fun a => a.classId == fromId)).foldl (migrateStep toId now) (atts, s)

/-- The predicate `run` uses to recognise the target index (script lines
83-90): right name, unique, collation locale `en` at strength 2. -/
def isCiUnique (idx : IndexSpec) : Bool :=
  idx.name == "className_ci_unique" && idx.unique &&
    (match idx.collation with
     | some (loc, str) => loc == "en" && str == 2
     | none => false)

/-- Embeds `ensureCaseInsensitiveUniqueIndex` (script lines 79-107). -/
def ensureCaseInsensitiveUniqueIndex (indexes : List IndexSpec) (s : Summary) :
    List IndexSpec × Summary :=
  let hasCiUnique := indexes.any isCiUnique
  if hasCiUnique then
    (indexes, { s with indexStatus := some "className_ci_unique already present" })
  else
    let dropStep :=
      if indexes.any (fun idx => idx.name == "className_1") then
        (indexes.filter (fun idx => idx.name ≠ "className_1"),
         { s with indexDropped := some "className_1" })
      else (indexes, s)
    (dropStep.1 ++ [{ name := "className_ci_unique", unique := true, collation := some ("en", 2) }],
     { dropStep.2 with indexCreated := some "className_ci_unique" })

/-- Loop-carried state of the per-group duplicate loop in `run` (script
lines 166-205): current database, summary, merged subject list, seen
subject keys, and merged total-student count. -/
structure GroupState where
  db : DB
  s : Summary
  merged : List Subject
  seen : List String
  total : Nat

/-- Fold one duplicate-side subject list into the merged list and seen-key
set (script lines 185-191). -/
def addSubjects (st : List Subject × List String) (subs : List Subject) :
    List Subject × List String :=
  subs.foldl
    (fun acc subj =>
      let key := subjectKey subj
      if acc.2.contains key then acc else (acc.1 ++ [subj], acc.2 ++ [key]))
    st

/-- Body of the `for (const duplicate of duplicates)` loop of `run` (script
lines 170-205): migrate attendance, retarget reports and announcements,
fold subjects and total students, delete the duplicate classroom, and push
the audit entry. -/
def mergeDuplicate (canonical : GroupDoc) (normN : String) (now : Int)
    (st : GroupState) (dup : GroupDoc) : GroupState :=
  let migrated := migrateAttendance st.db.attendances dup.doc._id canonical.doc._id now st.s
  let repMove := updateManyCount (fun r => r.classId == dup.doc._id)
    (fun r => { r with classId := canonical.doc._id }) st.db.reports
  let s2 := { migrated.2 with reportsMoved := migrated.2.reportsMoved + repMove.2 }
  let annMove := updateManyCount (fun r => r.classId == dup.doc._id)
    (fun r => { r with classId := canonical.doc._id }) st.db.announcements
  let s3 := { s2 with announcementsMoved := s2.announcementsMoved + annMove.2 }
  let subjFold := addSubjects (st.merged, st.seen) (dup.doc.subjects.getD [])
  let total2 := max st.total (dup.doc.totalStudents.getD 0)
  let cls2 := deleteFirst (fun c => c._id == dup.doc._id) st.db.classrooms
  let s4 :=
    { s3 with
      duplicateClassroomsDeleted := s3.duplicateClassroomsDeleted + 1
      actions := s3.actions ++
        [{ normalizedName := normN
           keptClassId := canonical.doc._id
           removedClassId := dup.doc._id
           keptClassName := canonical.doc.className
           removedClassName := dup.doc.className
           refsMoved := dup.refs }] }
  { db :=
      { classrooms := cls2
        attendances := migrated.1
        reports := repMove.1
        announcements := annMove.1
        indexes := st.db.indexes }
    s := s4
    merged := subjFold.1
    seen := subjFold.2
    total := total2 }

/-- Annotate each member of a group with its reference counts, computed
against the current database (script lines 157-161). -/
def scoreDocs (db : DB) (docs : List Classroom) : List GroupDoc :=
  docs.map (fun d => { doc := d, refs := countRefs db d._id })

/-- Process one duplicate-name group (body of the `for (const group of
groups)` loop of `run`, script lines 156-217): score members, choose the
canonical, merge every duplicate into it, then write the merged subject
list, merged total-student count and trimmed class name onto the canonical
classroom document. -/
def processGroup (db : DB) (normN : String) (docs : List Classroom) (now : Int)
    (s : Summary) : DB × Summary :=
  let withRefs := scoreDocs db docs
  match chooseCanonical withRefs with
  | none => (db, s)
  | some canonical =>
    let duplicates := withRefs.filter (fun d => d.doc._id ≠ canonical.doc._id)
    let canonSubs := canonical.doc.subjects.getD []
    let st0 : GroupState :=
      { db := db, s := s, merged := canonSubs, seen := canonSubs.map subjectKey,
        total := canonical.doc.totalStudents.getD 0 }
    let stF := duplicates.foldl (mergeDuplicate canonical normN now) st0
    let cls2 := updateFirst (fun c => c._id == canonical.doc._id)
      (fun c =>
        { c with
          className := strTrim canonical.doc.className
          totalStudents := some stF.total
          subjects := some stF.merged })
      stF.db.classrooms
    ({ stF.db with classrooms := cls2 }, stF.s)

/-- Result of a run: the database state the process leaves behind, the
summary, and the error message when the run aborts (`none` on success). -/
structure RunResult where
  db : DB
  summary : Summary
  error : Option String
  deriving DecidableEq, Repr

/-- The abort message thrown when duplicates survive the merge phase. -/
def abortMessage : String :=
  "Duplicate class names still exist after dedupe. Aborting index migration."

/-- The duplicate-group phase of `run` (script lines 131-217): find the
duplicate groups, record their number, and process each in turn. -/
def groupPhase (db : DB) (now : Int) : DB × Summary :=
  (dupGroups db.classrooms).foldl
    (fun p g => processGroup p.1 g.1 g.2 now p.2)
    (db, { initSummary with duplicateGroupsFound := (dupGroups db.classrooms).length })

/-- Embeds `run` (script lines 109-239): find duplicate groups, process
each, re-check for surviving collisions (aborting before any index change
if some remain), then ensure the case-insensitive unique index. -/
def run (db : DB) (now : Int) : RunResult :=
  let afterGroups := groupPhase db now
  if (dupGroups afterGroups.1.classrooms).length > 0 then
    { db := afterGroups.1, summary := afterGroups.2, error := some abortMessage }
  else
    let ensured := ensureCaseInsensitiveUniqueIndex afterGroups.1.indexes afterGroups.2
    { db := { afterGroups.1 with indexes := ensured.1 }
      summary := { ensured.2 with finalIndexes := some ensured.1 }
      error := none }

/-! Lemmas about the first-match collection operations. -/

section ListOps

variable {α : Type} {β : Type}

theorem length_updateFirst (p : α → Bool) (f : α → α) (l : List α) :
    (updateFirst p f l).length = l.length := by
  induction l with
  | nil => rfl
  | cons x xs ih =>
    simp only [updateFirst]
    split <;> simp [ih]

theorem map_updateFirst (g : α → β) (p : α → Bool) (f : α → α)
    (hg : ∀ a, g (f a) = g a) (l : List α) :
    (updateFirst p f l).map g = l.map g := by
  induction l with
  | nil => rfl
  | cons x xs ih =>
    simp only [updateFirst]
    split <;> simp [ih, hg]

theorem countP_updateFirst_preserve (q p : α → Bool) (f : α → α)
    (hq : ∀ a, q (f a) = q a) (l : List α) :
    (updateFirst p f l).countP q = l.countP q := by
  induction l with
  | nil => rfl
  | cons x xs ih =>
    simp only [updateFirst]
    split <;> simp [List.countP_cons, ih, hq]

theorem filter_updateFirst_of_none (q p : α → Bool) (f : α → α) (l : List α)
    (h : ∀ a ∈ l, p a = true → q a = false ∧ q (f a) = false) :
    (updateFirst p f l).filter q = l.filter q := by
  induction l with
  | nil => rfl
  | cons x xs ih =>
    simp only [updateFirst]
    by_cases hp : p x = true
    · obtain ⟨h1, h2⟩ := h x (List.mem_cons_self x xs) hp
      simp [hp, List.filter_cons, h1, h2]
    · have hp' : p x = false := by simpa using hp
      have ih' := ih (fun a ha => h a (List.mem_cons_of_mem x ha))
      simp only [hp', Bool.false_eq_true, if_false]
      by_cases hq : q x = true <;> simp [List.filter_cons, hq, ih']

theorem filter_updateFirst_move (q p : α → Bool) (f : α → α) (l : List α)
    (x : α) (rest : List α)
    (hfq : l.filter q = x :: rest) (hpx : p x = true)
    (huniq : ∀ a ∈ l, p a = true → a = x) (hqf : q (f x) = false) :
    (updateFirst p f l).filter q = rest := by
  induction l with
  | nil => simp at hfq
  | cons a xs ih =>
    rw [List.filter_cons] at hfq
    by_cases hqa : q a = true
    · rw [if_pos hqa] at hfq
      injection hfq with hax hrest
      subst hax
      simp [updateFirst, hpx, List.filter_cons, hqf, hrest]
    · rw [if_neg hqa] at hfq
      have hpa : p a = false := by
        by_contra hne
        have hpa : p a = true := by simpa using hne
        have hax := huniq a (List.mem_cons_self a xs) hpa
        have hxmem : x ∈ xs.filter q := by
          rw [hfq]; exact List.mem_cons_self x rest
        have hqx : q x = true := (List.mem_filter.mp hxmem).2
        rw [hax] at hqa
        exact hqa hqx
      have hqa' : q a = false := by simpa using hqa
      have ih' := ih hfq (fun b hb => huniq b (List.mem_cons_of_mem a hb))
      simp [updateFirst, hpa, List.filter_cons, hqa', ih']

theorem countP_updateFirst_move (t p : α → Bool) (f : α → α) (l : List α)
    (x : α) (hx : x ∈ l) (hpx : p x = true)
    (huniq : ∀ a ∈ l, p a = true → a = x) :
    (updateFirst p f l).countP t + (if t x then 1 else 0)
      = l.countP t + (if t (f x) then 1 else 0) := by
  induction l with
  | nil => simp at hx
  | cons a xs ih =>
    by_cases hpa : p a = true
    · have hax : a = x := huniq a (List.mem_cons_self a xs) hpa
      subst hax
      simp only [updateFirst, hpa, if_true, List.countP_cons]
      omega
    · have hpa' : p a = false := by simpa using hpa
      have hax : x ∈ xs := by
        rcases List.mem_cons.mp hx with h | h
        · subst h; simp [hpx] at hpa'
        · exact h
      have ih' := ih hax (fun b hb => huniq b (List.mem_cons_of_mem a hb))
      simp only [updateFirst, hpa', Bool.false_eq_true, if_false, List.countP_cons]
      omega

theorem mem_updateFirst_of_not (p : α → Bool) (f : α → α) (l : List α)
    (a : α) (ha : a ∈ l) (hpa : p a = false) : a ∈ updateFirst p f l := by
  induction l with
  | nil => simp at ha
  | cons x xs ih =>
    by_cases hpx : p x = true
    · rcases List.mem_cons.mp ha with h | h
      · subst h; simp [hpx] at hpa
      · simp only [updateFirst, hpx, if_true]
        exact List.mem_cons_of_mem _ h
    · have hpx' : p x = false := by simpa using hpx
      simp only [updateFirst, hpx', Bool.false_eq_true, if_false]
      rcases List.mem_cons.mp ha with h | h
      · subst h; exact List.mem_cons_self a _
      · exact List.mem_cons_of_mem _ (ih h)

theorem deleteFirst_sublist (p : α → Bool) (l : List α) :
    (deleteFirst p l).Sublist l := by
  induction l with
  | nil => simp [deleteFirst]
  | cons x xs ih =>
    simp only [deleteFirst]
    split
    · exact List.sublist_cons_self x xs
    · exact List.Sublist.cons₂ x ih

theorem filter_deleteFirst_move (q p : α → Bool) (l : List α)
    (x : α) (rest : List α)
    (hfq : l.filter q = x :: rest) (hpx : p x = true)
    (huniq : ∀ a ∈ l, p a = true → a = x) :
    (deleteFirst p l).filter q = rest := by
  induction l with
  | nil => simp at hfq
  | cons a xs ih =>
    rw [List.filter_cons] at hfq
    by_cases hqa : q a = true
    · rw [if_pos hqa] at hfq
      injection hfq with hax hrest
      subst hax
      simp [deleteFirst, hpx, hrest]
    · rw [if_neg hqa] at hfq
      have hpa : p a = false := by
        by_contra hne
        have hpa : p a = true := by simpa using hne
        have hax := huniq a (List.mem_cons_self a xs) hpa
        have hxmem : x ∈ xs.filter q := by
          rw [hfq]; exact List.mem_cons_self x rest
        have hqx : q x = true := (List.mem_filter.mp hxmem).2
        rw [hax] at hqa
        exact hqa hqx
      have hqa' : q a = false := by simpa using hqa
      have ih' := ih hfq (fun b hb => huniq b (List.mem_cons_of_mem a hb))
      simp [deleteFirst, hpa, List.filter_cons, hqa', ih']

theorem countP_deleteFirst (t p : α → Bool) (l : List α)
    (x : α) (hx : x ∈ l) (hpx : p x = true)
    (huniq : ∀ a ∈ l, p a = true → a = x) :
    (deleteFirst p l).countP t + (if t x then 1 else 0) = l.countP t := by
  induction l with
  | nil => simp at hx
  | cons a xs ih =>
    by_cases hpa : p a = true
    · have hax : a = x := huniq a (List.mem_cons_self a xs) hpa
      subst hax
      simp only [deleteFirst, hpa, if_true, List.countP_cons]
    · have hpa' : p a = false := by simpa using hpa
      have hax : x ∈ xs := by
        rcases List.mem_cons.mp hx with h | h
        · subst h; simp [hpx] at hpa'
        · exact h
      have ih' := ih hax (fun b hb => huniq b (List.mem_cons_of_mem a hb))
      simp only [deleteFirst, hpa', Bool.false_eq_true, if_false, List.countP_cons]
      omega

theorem length_deleteFirst (p : α → Bool) (l : List α)
    (x : α) (hx : x ∈ l) (hpx : p x = true) :
    (deleteFirst p l).length + 1 = l.length := by
  induction l with
  | nil => simp at hx
  | cons a xs ih =>
    by_cases hpa : p a = true
    · simp [deleteFirst, hpa]
    · have hpa' : p a = false := by simpa using hpa
      have hax : x ∈ xs := by
        rcases List.mem_cons.mp hx with h | h
        · subst h; simp [hpx] at hpa'
        · exact h
      have ih' := ih hax
      simp only [deleteFirst, hpa', Bool.false_eq_true, if_false, List.length_cons]
      omega

theorem find?_updateFirst_of_find? (q p : α → Bool) (f : α → α) (l : List α)
    (x : α) (hq : l.find? q = some x) (hpx : p x = true)
    (huniq : ∀ a ∈ l, p a = true → a = x) (hqf : q (f x) = true) :
    (updateFirst p f l).find? q = some (f x) := by
  induction l with
  | nil => simp at hq
  | cons a xs ih =>
    by_cases hqa : q a = true
    · have hax : a = x := by
        have h1 := hq
        simp only [List.find?_cons, hqa, cond_true, Option.some.injEq] at h1
        exact h1
      subst hax
      simp [updateFirst, hpx, List.find?_cons, hqf]
    · have hqa' : q a = false := by simpa using hqa
      have hq' : xs.find? q = some x := by
        simpa [List.find?_cons, hqa'] using hq
      have hpa : p a = false := by
        by_contra hne
        have hpa : p a = true := by simpa using hne
        have hax := huniq a (List.mem_cons_self a xs) hpa
        have hqx : q x = true := List.find?_some hq'
        rw [hax] at hqa
        exact hqa hqx
      have ih' := ih hq' (fun b hb => huniq b (List.mem_cons_of_mem a hb))
      simp [updateFirst, hpa, List.find?_cons, hqa', ih']

theorem find?_updateFirst_head (p : α → Bool) (f : α → α) (l : List α) (x : α)
    (hq : l.find? p = some x) (hqf : p (f x) = true) :
    (updateFirst p f l).find? p = some (f x) := by
  induction l with
  | nil => simp at hq
  | cons a xs ih =>
    by_cases hp : p a = true
    · have hax : a = x := by
        have h1 := hq
        simp only [List.find?_cons, hp, cond_true, Option.some.injEq] at h1
        exact h1
      subst hax
      simp [updateFirst, hp, List.find?_cons, hqf]
    · have hp' : p a = false := by simpa using hp
      have hq' : xs.find? p = some x := by
        simpa [List.find?_cons, hp'] using hq
      simp [updateFirst, hp', List.find?_cons, ih hq']

theorem find?_deleteFirst_disjoint (q p : α → Bool) (l : List α)
    (h : ∀ a ∈ l, p a = true → q a = false) :
    (deleteFirst p l).find? q = l.find? q := by
  induction l with
  | nil => rfl
  | cons a xs ih =>
    by_cases hpa : p a = true
    · have hqa : q a = false := h a (List.mem_cons_self a xs) hpa
      simp [deleteFirst, hpa, List.find?_cons, hqa]
    · have hpa' : p a = false := by simpa using hpa
      have ih' := ih (fun b hb => h b (List.mem_cons_of_mem a hb))
      by_cases hqa : q a = true <;>
        simp [deleteFirst, hpa', List.find?_cons, hqa, ih']

theorem countP_or_disjoint (p q : α → Bool) (l : List α)
    (h : ∀ a ∈ l, ¬(p a = true ∧ q a = true)) :
    l.countP (fun a => p a || q a) = l.countP p + l.countP q := by
  induction l with
  | nil => rfl
  | cons a xs ih =>
    have ih' := ih (fun b hb => h b (List.mem_cons_of_mem a hb))
    have ha := h a (List.mem_cons_self a xs)
    have ha' : p a = false ∨ q a = false := by
      by_cases hp : p a = true
      · by_cases hq : q a = true
        · exact absurd ⟨hp, hq⟩ ha
        · right; simpa using hq
      · left; simpa using hp
    rcases ha' with hp | hq
    · by_cases hq : q a = true
      · simp only [List.countP_cons, ih', hp, hq, Bool.false_or, if_true,
          Bool.false_eq_true, if_false]
        omega
      · have hq' : q a = false := by simpa using hq
        simp only [List.countP_cons, ih', hp, hq', Bool.false_or,
          Bool.false_eq_true, if_false]
        omega
    · by_cases hp : p a = true
      · simp only [List.countP_cons, ih', hp, hq, Bool.or_false, if_true,
          Bool.false_eq_true, if_false]
        omega
      · have hp' : p a = false := by simpa using hp
        simp only [List.countP_cons, ih', hp', hq, Bool.or_false,
          Bool.false_eq_true, if_false]
        omega

theorem nodup_key_unique {β : Type} [DecidableEq β] (g : α → β) (l : List α)
    (hN : (l.map g).Nodup) (x : α) (hx : x ∈ l) :
    ∀ a ∈ l, (g a == g x) = true → a = x := by
  intro a ha hga
  exact List.inj_on_of_nodup_map hN ha hx (by simpa using hga)

theorem find?_key_of_nodup {β : Type} [DecidableEq β] (g : α → β) (l : List α)
    (hN : (l.map g).Nodup) (x : α) (hx : x ∈ l) :
    l.find? (fun a => g a == g x) = some x := by
  induction l with
  | nil => simp at hx
  | cons a xs ih =>
    by_cases hga : g a = g x
    · have hax : a = x :=
        List.inj_on_of_nodup_map hN (List.mem_cons_self a xs) hx hga
      simp [List.find?_cons, hga, hax]
    · have hxxs : x ∈ xs := by
        rcases List.mem_cons.mp hx with h | h
        · subst h; simp at hga
        · exact h
      have hN' : (xs.map g).Nodup := by
        simpa using (List.nodup_cons.mp (by simpa using hN)).2
      have : (g a == g x) = false := by simpa using hga
      simp [List.find?_cons, this, ih hN' hxxs]

end ListOps

/-! Lemmas about the canonical-selection comparator. -/

theorem cmpDocs_self (a : GroupDoc) : cmpDocs a a = 0 := by
  simp [cmpDocs]

theorem cmpDocs_neg (a b : GroupDoc) : cmpDocs a b = -cmpDocs b a := by
  simp only [cmpDocs]
  split_ifs <;> omega

theorem cmpDocs_trans (a b c : GroupDoc)
    (h1 : cmpDocs a b < 0) (h2 : cmpDocs b c < 0) : cmpDocs a c < 0 := by
  simp only [cmpDocs] at h1 h2 ⊢
  split_ifs at h1 h2 ⊢ <;> omega

theorem cmpDocs_lt_of_not_lt_of_lt (a b c : GroupDoc)
    (h1 : ¬ cmpDocs a b < 0) (h2 : cmpDocs a c < 0) : cmpDocs b c < 0 := by
  simp only [cmpDocs] at h1 h2 ⊢
  split_ifs at h1 h2 ⊢ <;> omega

/-- The foldl used by `chooseCanonical` returns either the seed or a list
member. -/
theorem foldl_pick_mem (xs : List GroupDoc) (b : GroupDoc) :
    xs.foldl (fun best c => if cmpDocs c best < 0 then c else best) b = b ∨
      xs.foldl (fun best c => if cmpDocs c best < 0 then c else best) b ∈ xs := by
  induction xs generalizing b with
  | nil => left; rfl
  | cons x xs ih =>
    simp only [List.foldl_cons]
    rcases ih (if cmpDocs x b < 0 then x else b) with h | h
    · rw [h]
      split
      · right; exact List.mem_cons_self x xs
      · left; rfl
    · right; exact List.mem_cons_of_mem x h

/-- No element seen by the fold strictly precedes the fold's result. -/
theorem foldl_pick_min (xs : List GroupDoc) (b : GroupDoc) :
    ∀ y, (y = b ∨ y ∈ xs) →
      ¬ cmpDocs y (xs.foldl (fun best c => if cmpDocs c best < 0 then c else best) b) < 0 := by
  induction xs generalizing b with
  | nil =>
    intro y hy
    rcases hy with hy | hy
    · subst hy
      simp [List.foldl_nil, cmpDocs_self]
    · simp at hy
  | cons x xs ih =>
    intro y hy
    simp only [List.foldl_cons]
    set b' := if cmpDocs x b < 0 then x else b with hb'
    rcases hy with hy | hy
    · by_cases hxb : cmpDocs x b < 0
      · have hb'x : b' = x := by rw [hb', if_pos hxb]
        intro hcon
        rw [hy] at hcon
        exact ih b' x (Or.inl hb'x.symm) (cmpDocs_trans x b _ hxb hcon)
      · have hb'b : b' = b := by rw [hb', if_neg hxb]
        rw [hy]
        exact ih b' b (Or.inl hb'b.symm)
    · rcases List.mem_cons.mp hy with hy | hy
      · by_cases hxb : cmpDocs x b < 0
        · have hb'x : b' = x := by rw [hb', if_pos hxb]
          rw [hy]
          exact ih b' x (Or.inl hb'x.symm)
        · have hb'b : b' = b := by rw [hb', if_neg hxb]
          intro hcon
          rw [hy] at hcon
          exact ih b' b (Or.inl hb'b.symm) (cmpDocs_lt_of_not_lt_of_lt x b _ hxb hcon)
      · exact ih b' y (Or.inr hy)

/-- If the fold's seed-or-members contain a strict minimum, the fold
returns it. -/
theorem foldl_pick_eq_of_strict (xs : List GroupDoc) (b m : GroupDoc)
    (hb : b = m ∨ cmpDocs m b < 0)
    (hxs : ∀ x ∈ xs, x = m ∨ cmpDocs m x < 0)
    (hmem : m = b ∨ m ∈ xs) :
    xs.foldl (fun best c => if cmpDocs c best < 0 then c else best) b = m := by
  induction xs generalizing b with
  | nil =>
    rcases hmem with h | h
    · simp [List.foldl_nil, h]
    · simp at h
  | cons x xs ih =>
    simp only [List.foldl_cons]
    set b' := if cmpDocs x b < 0 then x else b with hb'
    have hb'm : b' = m ∨ cmpDocs m b' < 0 := by
      rw [hb']
      by_cases hxb : cmpDocs x b < 0
      · rw [if_pos hxb]
        exact hxs x (List.mem_cons_self x xs)
      · rw [if_neg hxb]
        exact hb
    have hxs' : ∀ y ∈ xs, y = m ∨ cmpDocs m y < 0 :=
      fun y hy => hxs y (List.mem_cons_of_mem x hy)
    have hmem' : m = b' ∨ m ∈ xs := by
      by_cases hxb : cmpDocs x b < 0
      · have hb'x : b' = x := by rw [hb', if_pos hxb]
        rcases hxs x (List.mem_cons_self x xs) with hxm | hxm
        · left; rw [hb'x, hxm]
        · rcases hmem with h | h
          · exfalso
            rw [← h] at hxb
            have := cmpDocs_neg m x
            omega
          · rcases List.mem_cons.mp h with h | h
            · exfalso
              rw [← h] at hxm
              have := cmpDocs_self m
              omega
            · right; exact h
      · have hb'b : b' = b := by rw [hb', if_neg hxb]
        rcases hmem with h | h
        · left; rw [hb'b, h]
        · rcases List.mem_cons.mp h with h | h
          · rcases hb with hbm | hbm
            · left; rw [hb'b, hbm]
            · exfalso
              rw [← h] at hxb
              exact hxb hbm
          · right; exact h
    exact ih b' hb'm hxs' hmem'

/-- A selected canonical is a member of its group. -/
theorem chooseCanonical_mem (l : List GroupDoc) (m : GroupDoc)
    (h : chooseCanonical l = some m) : m ∈ l := by
  cases l with
  | nil => simp [chooseCanonical] at h
  | cons x xs =>
    simp only [chooseCanonical, Option.some.injEq] at h
    rcases foldl_pick_mem xs x with h' | h'
    · rw [h] at h'
      rw [h']
      exact List.mem_cons_self x xs
    · rw [h] at h'
      exact List.mem_cons_of_mem x h'

/-- No member of the group strictly precedes the selected canonical. -/
theorem chooseCanonical_minimal (l : List GroupDoc) (m : GroupDoc)
    (h : chooseCanonical l = some m) : ∀ x ∈ l, ¬ cmpDocs x m < 0 := by
  cases l with
  | nil => simp [chooseCanonical] at h
  | cons a xs =>
    intro x hx
    simp only [chooseCanonical, Option.some.injEq] at h
    rw [← h]
    rcases List.mem_cons.mp hx with hx | hx
    · exact foldl_pick_min xs a x (Or.inl hx)
    · exact foldl_pick_min xs a x (Or.inr hx)

/-- When some member strictly precedes all others, it is selected. -/
theorem chooseCanonical_eq_of_strict (l : List GroupDoc) (m : GroupDoc)
    (hmem : m ∈ l) (hstrict : ∀ x ∈ l, x = m ∨ cmpDocs m x < 0) :
    chooseCanonical l = some m := by
  cases l with
  | nil => simp at hmem
  | cons a xs =>
    simp only [chooseCanonical, Option.some.injEq]
    refine foldl_pick_eq_of_strict xs a m ?_ ?_ ?_
    · rcases hstrict a (List.mem_cons_self a xs) with h | h
      · left; rw [h]
      · right; exact h
    · exact fun x hx => hstrict x (List.mem_cons_of_mem a hx)
    · rcases List.mem_cons.mp hmem with h | h
      · left; rw [h]
      · right; exact h

/-! Lemmas about duplicate-group discovery. -/

theorem mem_firstDedup (l : List String) (n : String) :
    n ∈ firstDedup l ↔ n ∈ l := by
  induction l with
  | nil => simp [firstDedup]
  | cons a xs ih =>
    simp only [firstDedup, List.mem_cons, List.mem_filter]
    constructor
    · rintro (h | ⟨h, _⟩)
      · left; exact h
      · right; exact ih.mp h
    · rintro (h | h)
      · left; exact h
      · by_cases hna : n = a
        · left; exact hna
        · right
          exact ⟨ih.mpr h, by simpa using hna⟩

/-- The duplicate-group scan finds nothing exactly when the normalised class
names are pairwise distinct. -/
theorem dupGroups_eq_nil_iff (cls : List Classroom) :
    dupGroups cls = [] ↔ (cls.map (fun c => normName c.className)).Nodup := by
  unfold dupGroups
  rw [List.filter_eq_nil_iff]
  constructor
  · intro h
    rw [List.nodup_iff_count_le_one]
    intro n
    by_cases hn : n ∈ cls.map (fun c => normName c.className)
    · have hmem : (n, groupDocs cls n) ∈
          (firstDedup (cls.map (fun c => normName c.className))).map
            (fun n => (n, groupDocs cls n)) :=
        List.mem_map_of_mem _ ((mem_firstDedup _ n).mpr hn)
      have hlen := h _ hmem
      simp only [decide_eq_true_eq, not_lt] at hlen
      calc (cls.map (fun c => normName c.className)).count n
          = (cls.map (fun c => normName c.className)).countP (fun x => x == n) := by
            rw [List.count_eq_countP]
        _ = cls.countP (fun c => normName c.className == n) := by
            rw [List.countP_map]; rfl
        _ = (groupDocs cls n).length := by
            rw [groupDocs, List.countP_eq_length_filter]
        _ ≤ 1 := hlen
    · have : (cls.map (fun c => normName c.className)).count n = 0 :=
        List.count_eq_zero_of_not_mem hn
      omega
  · intro hnd g hg
    simp only [List.mem_map] at hg
    obtain ⟨n, _, hgn⟩ := hg
    subst hgn
    simp only [decide_eq_true_eq, not_lt]
    calc (groupDocs cls n).length
        = cls.countP (fun c => normName c.className == n) := by
          rw [groupDocs, List.countP_eq_length_filter]
      _ = (cls.map (fun c => normName c.className)).countP (fun x => x == n) := by
          rw [List.countP_map]; rfl
      _ = (cls.map (fun c => normName c.className)).count n := by
          rw [List.count_eq_countP]
      _ ≤ 1 := List.nodup_iff_count_le_one.mp hnd n

/-! Lemmas about attendance migration. -/

/-- Delta relation on summaries across attendance migration: exactly the
four attendance counters change, by the stated amounts. -/
def AttDelta (s s' : Summary) (mv rp kp : Nat) : Prop :=
  s'.attendanceMoved = s.attendanceMoved + mv ∧
  s'.attendanceReplaced = s.attendanceReplaced + rp ∧
  s'.attendanceKeptPrimary = s.attendanceKeptPrimary + kp ∧
  s'.attendanceRemovedFromDuplicate = s.attendanceRemovedFromDuplicate + (rp + kp) ∧
  s'.duplicateGroupsFound = s.duplicateGroupsFound ∧
  s'.duplicateClassroomsDeleted = s.duplicateClassroomsDeleted ∧
  s'.reportsMoved = s.reportsMoved ∧
  s'.announcementsMoved = s.announcementsMoved ∧
  s'.indexDropped = s.indexDropped ∧
  s'.indexCreated = s.indexCreated ∧
  s'.indexStatus = s.indexStatus ∧
  s'.actions = s.actions ∧
  s'.finalIndexes = s.finalIndexes

theorem AttDelta_refl (s : Summary) : AttDelta s s 0 0 0 := by
  unfold AttDelta
  refine ⟨by omega, by omega, by omega, by omega, rfl, rfl, rfl, rfl, rfl, rfl, rfl, rfl, rfl⟩

theorem AttDelta_trans (s s' s'' : Summary) (a b c d e f : Nat)
    (h1 : AttDelta s s' a b c) (h2 : AttDelta s' s'' d e f) :
    AttDelta s s'' (a + d) (b + e) (c + f) := by
  obtain ⟨m1, r1, k1, x1, g1, d1, p1, n1, i1, j1, t1, a1, f1⟩ := h1
  obtain ⟨m2, r2, k2, x2, g2, d2, p2, n2, i2, j2, t2, a2, f2⟩ := h2
  unfold AttDelta
  refine ⟨by omega, by omega, by omega, by omega, by rw [g2, g1], by rw [d2, d1],
    by rw [p2, p1], by rw [n2, n1], by rw [i2, i1], by rw [j2, j1],
    by rw [t2, t1], by rw [a2, a1], by rw [f2, f1]⟩

/-- Full behaviour of one iteration of the `migrateAttendance` loop on the
head record of the remaining duplicate-side snapshot. -/
theorem migrateStep_spec (fromId toId : Nat) (now : Int)
    (atts : List Attendance) (s : Summary) (record : Attendance)
    (rest : List Attendance)
    (hne : fromId ≠ toId)
    (hN : (atts.map Attendance._id).Nodup)
    (hfil : atts.filter (fun a => a.classId == fromId) = record :: rest) :
    ((migrateStep toId now (atts, s) record).1.map Attendance._id).Nodup ∧
    (migrateStep toId now (atts, s) record).1.filter (fun a => a.classId == fromId) = rest ∧
    ∃ mv rp kp, AttDelta s (migrateStep toId now (atts, s) record).2 mv rp kp ∧
      mv + rp + kp = 1 ∧
      (migrateStep toId now (atts, s) record).1.countP (fun a => a.classId == toId)
        = atts.countP (fun a => a.classId == toId) + mv ∧
      (migrateStep toId now (atts, s) record).1.length + rp + kp = atts.length ∧
      ∀ c, c ≠ fromId → c ≠ toId →
        (migrateStep toId now (atts, s) record).1.countP (fun a => a.classId == c)
          = atts.countP (fun a => a.classId == c) := by
  have hrec_mem : record ∈ atts := by
    have : record ∈ atts.filter (fun a => a.classId == fromId) := by
      rw [hfil]; exact List.mem_cons_self record rest
    exact (List.mem_filter.mp this).1
  have hrecFrom : record.classId = fromId := by
    have : record ∈ atts.filter (fun a => a.classId == fromId) := by
      rw [hfil]; exact List.mem_cons_self record rest
    simpa using (List.mem_filter.mp this).2
  have huniq : ∀ a ∈ atts, (a._id == record._id) = true → a = record :=
    nodup_key_unique Attendance._id atts hN record hrec_mem
  have hRecIdSelf : (record._id == record._id) = true := by simp
  have hToFrom : ((toId : Nat) == fromId) = false := by
    simp only [beq_eq_false_iff_ne, ne_eq]
    exact fun h => hne h.symm
  have hFromTo : ((fromId : Nat) == toId) = false := by
    simp only [beq_eq_false_iff_ne, ne_eq]
    exact hne
  cases hfind : atts.find? (fun a => a.classId == toId && a.date == record.date) with
  | none =>
    -- no canonical-side record for this date: retarget in place
    simp only [migrateStep, hfind]
    constructor
    · rw [map_updateFirst Attendance._id (fun a => a._id == record._id)
        (fun a => { a with classId := toId }) (fun a => rfl) atts]
      exact hN
    constructor
    · refine filter_updateFirst_move _ _ _ atts record rest hfil hRecIdSelf huniq ?_
      simp only [hrecFrom]
      exact hToFrom
    refine ⟨1, 0, 0, ?_, by omega, ?_, ?_, ?_⟩
    · unfold AttDelta
      refine ⟨?_, ?_, ?_, ?_, ?_, ?_, ?_, ?_, ?_, ?_, ?_, ?_, ?_⟩ <;> simp
    · have h := countP_updateFirst_move (fun a => a.classId == toId)
        (fun a => a._id == record._id) (fun a => { a with classId := toId })
        atts record hrec_mem hRecIdSelf huniq
      simp only [hrecFrom, hFromTo, Bool.false_eq_true, if_false, beq_self_eq_true,
        if_true] at h
      omega
    · rw [length_updateFirst]
      omega
    · intro c hcf hct
      have hFc : ((fromId : Nat) == c) = false := by
        simp only [beq_eq_false_iff_ne, ne_eq]
        exact fun h => hcf h.symm
      have hTc : ((toId : Nat) == c) = false := by
        simp only [beq_eq_false_iff_ne, ne_eq]
        exact fun h => hct h.symm
      have h := countP_updateFirst_move (fun a => a.classId == c)
        (fun a => a._id == record._id) (fun a => { a with classId := toId })
        atts record hrec_mem hRecIdSelf huniq
      simp only [hrecFrom, hFc, hTc, Bool.false_eq_true, if_false] at h
      omega
  | some existing =>
    have hex_mem : existing ∈ atts := List.mem_of_find?_eq_some hfind
    have hexPred := List.find?_some hfind
    have hexTo : existing.classId = toId := by
      have := (Bool.and_eq_true _ _).mp hexPred
      simpa using this.1
    have hidNE : record._id ≠ existing._id := by
      intro h
      have : record = existing :=
        List.inj_on_of_nodup_map hN hrec_mem hex_mem h
      rw [this, hexTo] at hrecFrom
      exact hne hrecFrom.symm
    have hExIdSelf : (existing._id == existing._id) = true := by simp
    have huniqEx : ∀ a ∈ atts, (a._id == existing._id) = true → a = existing :=
      nodup_key_unique Attendance._id atts hN existing hex_mem
    by_cases hgt : asTime record.updatedAt > asTime existing.updatedAt
    · -- duplicate-side record is newer: overwrite canonical, then delete
      simp only [migrateStep, hfind, if_pos hgt]
      set fper : Attendance → Attendance := fun a =>
        { a with
          periods := some (record.periods.getD [])
          updatedAt := if record.updatedAt.truthy then record.updatedAt else TS.t now }
        with hfper
      set atts1 := updateFirst (fun a => a._id == existing._id) fper atts with hatts1
      have hmap1 : atts1.map Attendance._id = atts.map Attendance._id := by
        rw [hatts1, map_updateFirst Attendance._id (fun a => a._id == existing._id)
          fper (fun a => rfl) atts]
      have hN1 : (atts1.map Attendance._id).Nodup := by rw [hmap1]; exact hN
      have hfil1 : atts1.filter (fun a => a.classId == fromId) = record :: rest := by
        rw [hatts1, filter_updateFirst_of_none _ _ _ atts ?_, hfil]
        intro a ha hpa
        have ha' := huniqEx a ha hpa
        subst ha'
        constructor
        · simp only [hexTo]; exact hToFrom
        · simp only [hfper, hexTo]; exact hToFrom
      have hrec_mem1 : record ∈ atts1 := by
        rw [hatts1]
        refine mem_updateFirst_of_not _ _ atts record hrec_mem ?_
        simp only [beq_eq_false_iff_ne, ne_eq]
        exact hidNE
      have huniq1 : ∀ a ∈ atts1, (a._id == record._id) = true → a = record :=
        nodup_key_unique Attendance._id atts1 hN1 record hrec_mem1
      have hcnt1 : ∀ q : Nat → Bool,
          atts1.countP (fun a => q a.classId) = atts.countP (fun a => q a.classId) := by
        intro q
        rw [hatts1]
        exact countP_updateFirst_preserve (fun a => q a.classId)
          (fun a => a._id == existing._id) fper (fun a => by rw [hfper]) atts
      constructor
      · exact ((deleteFirst_sublist _ atts1).map Attendance._id).nodup hN1
      constructor
      · exact filter_deleteFirst_move _ _ atts1 record rest hfil1 hRecIdSelf huniq1
      refine ⟨0, 1, 0, ?_, by omega, ?_, ?_, ?_⟩
      · unfold AttDelta
        refine ⟨?_, ?_, ?_, ?_, ?_, ?_, ?_, ?_, ?_, ?_, ?_, ?_, ?_⟩ <;> simp
      · have h := countP_deleteFirst (fun a => a.classId == toId)
          (fun a => a._id == record._id) atts1 record hrec_mem1 hRecIdSelf huniq1
        have h2 := hcnt1 (fun x => x == toId)
        simp only [hrecFrom, hFromTo, Bool.false_eq_true, if_false] at h
        omega
      · have h := length_deleteFirst (fun a => a._id == record._id) atts1
          record hrec_mem1 hRecIdSelf
        have h2 : atts1.length = atts.length := by
          rw [hatts1, length_updateFirst]
        omega
      · intro c hcf hct
        have hFc : ((fromId : Nat) == c) = false := by
          simp only [beq_eq_false_iff_ne, ne_eq]
          exact fun h => hcf h.symm
        have h := countP_deleteFirst (fun a => a.classId == c)
          (fun a => a._id == record._id) atts1 record hrec_mem1 hRecIdSelf huniq1
        have h2 := hcnt1 (fun x => x == c)
        simp only [hrecFrom, hFc, Bool.false_eq_true, if_false] at h
        omega
    · -- canonical-side record is at least as recent: keep it, drop duplicate
      simp only [migrateStep, hfind, if_neg hgt]
      constructor
      · exact ((deleteFirst_sublist _ atts).map Attendance._id).nodup hN
      constructor
      · exact filter_deleteFirst_move _ _ atts record rest hfil hRecIdSelf huniq
      refine ⟨0, 0, 1, ?_, by omega, ?_, ?_, ?_⟩
      · unfold AttDelta
        refine ⟨?_, ?_, ?_, ?_, ?_, ?_, ?_, ?_, ?_, ?_, ?_, ?_, ?_⟩ <;> simp
      · have h := countP_deleteFirst (fun a => a.classId == toId)
          (fun a => a._id == record._id) atts record hrec_mem hRecIdSelf huniq
        simp only [hrecFrom, hFromTo, Bool.false_eq_true, if_false] at h
        omega
      · have h := length_deleteFirst (fun a => a._id == record._id) atts
          record hrec_mem hRecIdSelf
        omega
      · intro c hcf hct
        have hFc : ((fromId : Nat) == c) = false := by
          simp only [beq_eq_false_iff_ne, ne_eq]
          exact fun h => hcf h.symm
        have h := countP_deleteFirst (fun a => a.classId == c)
          (fun a => a._id == record._id) atts record hrec_mem hRecIdSelf huniq
        simp only [hrecFrom, hFc, Bool.false_eq_true, if_false] at h
        omega

/-- Behaviour of the whole `migrateAttendance` loop over the remaining
snapshot records. -/
theorem migrateLoop_spec (fromId toId : Nat) (now : Int) (hne : fromId ≠ toId) :
    ∀ (rs atts : List Attendance) (s : Summary),
      (atts.map Attendance._id).Nodup →
      atts.filter (fun a => a.classId == fromId) = rs →
      ∃ mv rp kp,
        AttDelta s (rs.foldl (migrateStep toId now) (atts, s)).2 mv rp kp ∧
        mv + rp + kp = rs.length ∧
        ((rs.foldl (migrateStep toId now) (atts, s)).1.map Attendance._id).Nodup ∧
        (rs.foldl (migrateStep toId now) (atts, s)).1.filter
          (fun a => a.classId == fromId) = [] ∧
        (rs.foldl (migrateStep toId now) (atts, s)).1.countP (fun a => a.classId == toId)
          = atts.countP (fun a => a.classId == toId) + mv ∧
        (rs.foldl (migrateStep toId now) (atts, s)).1.length + rp + kp = atts.length ∧
        ∀ c, c ≠ fromId → c ≠ toId →
          (rs.foldl (migrateStep toId now) (atts, s)).1.countP (fun a => a.classId == c)
            = atts.countP (fun a => a.classId == c) := by
  intro rs
  induction rs with
  | nil =>
    intro atts s hN hfil
    exact ⟨0, 0, 0, AttDelta_refl s, by simp, by simpa using hN, by simpa using hfil,
      by simp, by simp, fun c h1 h2 => by simp⟩
  | cons record rest ih =>
    intro atts s hN hfil
    obtain ⟨hN1, hfil1, mv1, rp1, kp1, hdelta1, hsum1, hcntTo1, hlen1, hcntC1⟩ :=
      migrateStep_spec fromId toId now atts s record rest hne hN hfil
    obtain ⟨mv2, rp2, kp2, hdelta2, hsum2, hN2, hfil2, hcntTo2, hlen2, hcntC2⟩ :=
      ih (migrateStep toId now (atts, s) record).1
        (migrateStep toId now (atts, s) record).2 hN1 hfil1
    simp only [Prod.mk.eta] at hdelta2 hsum2 hN2 hfil2 hcntTo2 hlen2 hcntC2
    refine ⟨mv1 + mv2, rp1 + rp2, kp1 + kp2, ?_, ?_, ?_, ?_, ?_, ?_, ?_⟩
    · simp only [List.foldl_cons]
      exact AttDelta_trans s _ _ mv1 rp1 kp1 mv2 rp2 kp2 hdelta1 hdelta2
    · simp only [List.length_cons]
      omega
    · simpa only [List.foldl_cons] using hN2
    · simpa only [List.foldl_cons] using hfil2
    · simp only [List.foldl_cons]
      rw [hcntTo2, hcntTo1]
      omega
    · simp only [List.foldl_cons]
      omega
    · intro c h1 h2
      simp only [List.foldl_cons]
      rw [hcntC2 c h1 h2, hcntC1 c h1 h2]

/-- Behaviour of `migrateAttendance`: the duplicate classroom ends with no
attendance documents; each snapshot record was either retargeted to the
canonical classroom (counted by `attendanceMoved`) or deleted after a date
conflict (counted one-to-one by `attendanceReplaced` or
`attendanceKeptPrimary`); no other classroom's attendance count changes. -/
theorem migrateAttendance_spec (atts : List Attendance) (fromId toId : Nat)
    (now : Int) (s : Summary)
    (hne : fromId ≠ toId) (hN : (atts.map Attendance._id).Nodup) :
    ∃ mv rp kp,
      AttDelta s (migrateAttendance atts fromId toId now s).2 mv rp kp ∧
      mv + rp + kp = atts.countP (fun a => a.classId == fromId) ∧
      ((migrateAttendance atts fromId toId now s).1.map Attendance._id).Nodup ∧
      (migrateAttendance atts fromId toId now s).1.filter
        (fun a => a.classId == fromId) = [] ∧
      (migrateAttendance atts fromId toId now s).1.countP (fun a => a.classId == toId)
        = atts.countP (fun a => a.classId == toId) + mv ∧
      (migrateAttendance atts fromId toId now s).1.length + rp + kp = atts.length ∧
      ∀ c, c ≠ fromId → c ≠ toId →
        (migrateAttendance atts fromId toId now s).1.countP (fun a => a.classId == c)
          = atts.countP (fun a => a.classId == c) := by
  obtain ⟨mv, rp, kp, hdelta, hsum, hN', hfil, hcntTo, hlen, hcntC⟩ :=
    migrateLoop_spec fromId toId now hne
      (atts.filter (fun a => a.classId == fromId)) atts s hN rfl
  refine ⟨mv, rp, kp, hdelta, ?_, hN', hfil, hcntTo, hlen, hcntC⟩
  rw [hsum, List.countP_eq_length_filter]

/-! Lemmas about merging one duplicate classroom into the canonical one. -/

/-- Delta relation on summaries across one duplicate merge: attendance
counters, retarget counters and the deletion counter change by the stated
amounts; the index bookkeeping and group count stay put. -/
def MergeDelta (s s' : Summary) (mv rp kp rm am : Nat) : Prop :=
  s'.attendanceMoved = s.attendanceMoved + mv ∧
  s'.attendanceReplaced = s.attendanceReplaced + rp ∧
  s'.attendanceKeptPrimary = s.attendanceKeptPrimary + kp ∧
  s'.attendanceRemovedFromDuplicate = s.attendanceRemovedFromDuplicate + (rp + kp) ∧
  s'.reportsMoved = s.reportsMoved + rm ∧
  s'.announcementsMoved = s.announcementsMoved + am ∧
  s'.duplicateClassroomsDeleted = s.duplicateClassroomsDeleted + 1 ∧
  s'.duplicateGroupsFound = s.duplicateGroupsFound ∧
  s'.indexDropped = s.indexDropped ∧
  s'.indexCreated = s.indexCreated ∧
  s'.indexStatus = s.indexStatus ∧
  s'.finalIndexes = s.finalIndexes

/-- The `modifiedCount` of retargeting a foreign key equals the number of
matched documents, because every matched document actually changes. -/
theorem updateManyCount_modified (dupId canId : Nat) (hne : dupId ≠ canId)
    (l : List RefDoc) :
    (updateManyCount (fun r => r.classId == dupId)
        (fun r => { r with classId := canId }) l).2
      = l.countP (fun r => r.classId == dupId) := by
  induction l with
  | nil => rfl
  | cons r rs ih =>
    by_cases hp : r.classId = dupId
    · have hfr : ({ r with classId := canId } : RefDoc) ≠ r := by
        intro h
        have h2 := congrArg RefDoc.classId h
        simp only at h2
        rw [hp] at h2
        exact hne h2.symm
      have hb : (r.classId == dupId) = true := by simpa using hp
      simp only [updateManyCount, List.filter_cons, List.countP_cons, hb,
        decide_eq_true hfr, Bool.and_self, if_true, List.length_cons]
      simp only [updateManyCount] at ih
      omega
    · have hb : (r.classId == dupId) = false := by simpa using hp
      simp only [updateManyCount, List.filter_cons, List.countP_cons, hb,
        Bool.false_and, Bool.false_eq_true, if_false]
      simp only [updateManyCount] at ih
      exact ih

/-- Counting effect of retargeting every `dupId` reference to `canId`. -/
theorem retarget_counts (dupId canId : Nat) (hne : dupId ≠ canId) (l : List RefDoc) :
    (l.map (fun r => if r.classId == dupId then { r with classId := canId } else r)).countP
        (fun r => r.classId == canId)
      = l.countP (fun r => r.classId == canId) + l.countP (fun r => r.classId == dupId) ∧
    ∀ c, c ≠ dupId → c ≠ canId →
      (l.map (fun r => if r.classId == dupId then { r with classId := canId } else r)).countP
          (fun r => r.classId == c)
        = l.countP (fun r => r.classId == c) := by
  induction l with
  | nil => exact ⟨rfl, fun c h1 h2 => rfl⟩
  | cons r rs ih =>
    obtain ⟨ih1, ih2⟩ := ih
    constructor
    · by_cases hp : r.classId = dupId
      · have hb : (r.classId == dupId) = true := by simpa using hp
        have hgr : (if r.classId == dupId then ({ r with classId := canId } : RefDoc) else r)
            = { r with classId := canId } := by simp [hb]
        have hq1 : ((({ r with classId := canId } : RefDoc)).classId == canId) = true := by
          simp
        have hq2 : (r.classId == canId) = false := by
          rw [hp]
          simp only [beq_eq_false_iff_ne, ne_eq]
          exact hne
        simp only [List.map_cons, List.countP_cons, hgr, hq1, hq2, hb, if_true,
          Bool.false_eq_true, if_false, ih1]
        omega
      · have hb : (r.classId == dupId) = false := by simpa using hp
        have hgr : (if r.classId == dupId then ({ r with classId := canId } : RefDoc) else r)
            = r := by simp [hb]
        by_cases hq : (r.classId == canId) = true
        · simp only [List.map_cons, List.countP_cons, hgr, hq, hb, if_true,
            Bool.false_eq_true, if_false, ih1]
          omega
        · have hq' : (r.classId == canId) = false := by simpa using hq
          simp only [List.map_cons, List.countP_cons, hgr, hq', hb,
            Bool.false_eq_true, if_false, ih1]
          omega
    · intro c h1 h2
      have ih2' := ih2 c h1 h2
      by_cases hp : r.classId = dupId
      · have hb : (r.classId == dupId) = true := by simpa using hp
        have hbc1 : ((canId : Nat) == c) = false := by
          simp only [beq_eq_false_iff_ne, ne_eq]
          exact fun h => h2 h.symm
        have hbc2 : (r.classId == c) = false := by
          rw [hp]
          simp only [beq_eq_false_iff_ne, ne_eq]
          exact fun h => h1 h.symm
        simp only [List.map_cons, List.countP_cons, hb, if_true, hbc1, hbc2,
          Bool.false_eq_true, if_false, ih2']
      · have hb : (r.classId == dupId) = false := by simpa using hp
        simp only [List.map_cons, List.countP_cons, hb, Bool.false_eq_true,
          if_false, ih2']

/-- Full behaviour of merging one duplicate classroom (one iteration of the
duplicates loop in `run`). -/
theorem mergeDuplicate_spec (canonical : GroupDoc) (normN : String) (now : Int)
    (st : GroupState) (dup : GroupDoc)
    (hne : dup.doc._id ≠ canonical.doc._id)
    (hN : (st.db.attendances.map Attendance._id).Nodup) :
    (mergeDuplicate canonical normN now st dup).db.indexes = st.db.indexes ∧
    (mergeDuplicate canonical normN now st dup).db.classrooms
      = deleteFirst (fun c => c._id == dup.doc._id) st.db.classrooms ∧
    (mergeDuplicate canonical normN now st dup).merged
      = (addSubjects (st.merged, st.seen) (dup.doc.subjects.getD [])).1 ∧
    (mergeDuplicate canonical normN now st dup).seen
      = (addSubjects (st.merged, st.seen) (dup.doc.subjects.getD [])).2 ∧
    (mergeDuplicate canonical normN now st dup).total
      = max st.total (dup.doc.totalStudents.getD 0) ∧
    ((mergeDuplicate canonical normN now st dup).db.attendances.map Attendance._id).Nodup ∧
    ∃ mv rp kp,
      MergeDelta st.s (mergeDuplicate canonical normN now st dup).s mv rp kp
        (st.db.reports.countP (fun r => r.classId == dup.doc._id))
        (st.db.announcements.countP (fun r => r.classId == dup.doc._id)) ∧
      mv + rp + kp = st.db.attendances.countP (fun a => a.classId == dup.doc._id) ∧
      (mergeDuplicate canonical normN now st dup).db.attendances.countP
          (fun a => a.classId == canonical.doc._id)
        = st.db.attendances.countP (fun a => a.classId == canonical.doc._id) + mv ∧
      (mergeDuplicate canonical normN now st dup).db.attendances.length + rp + kp
        = st.db.attendances.length ∧
      (∀ c, c ≠ dup.doc._id → c ≠ canonical.doc._id →
        (mergeDuplicate canonical normN now st dup).db.attendances.countP
            (fun a => a.classId == c)
          = st.db.attendances.countP (fun a => a.classId == c)) ∧
      (mergeDuplicate canonical normN now st dup).db.reports.countP
          (fun r => r.classId == canonical.doc._id)
        = st.db.reports.countP (fun r => r.classId == canonical.doc._id)
          + st.db.reports.countP (fun r => r.classId == dup.doc._id) ∧
      (∀ c, c ≠ dup.doc._id → c ≠ canonical.doc._id →
        (mergeDuplicate canonical normN now st dup).db.reports.countP
            (fun r => r.classId == c)
          = st.db.reports.countP (fun r => r.classId == c)) ∧
      (mergeDuplicate canonical normN now st dup).db.announcements.countP
          (fun r => r.classId == canonical.doc._id)
        = st.db.announcements.countP (fun r => r.classId == canonical.doc._id)
          + st.db.announcements.countP (fun r => r.classId == dup.doc._id) ∧
      (∀ c, c ≠ dup.doc._id → c ≠ canonical.doc._id →
        (mergeDuplicate canonical normN now st dup).db.announcements.countP
            (fun r => r.classId == c)
          = st.db.announcements.countP (fun r => r.classId == c)) := by
  obtain ⟨mv, rp, kp, hdelta, hsum, hN', hfil, hcntTo, hlen, hcntC⟩ :=
    migrateAttendance_spec st.db.attendances dup.doc._id canonical.doc._id now st.s hne hN
  obtain ⟨hm, hr, hk, hx, hg, hd, hp, hn, hi, hj, ht, hac, hf⟩ := hdelta
  refine ⟨rfl, rfl, rfl, rfl, rfl, hN', mv, rp, kp, ?_, hsum, hcntTo, hlen, hcntC,
    ?_, ?_, ?_, ?_⟩
  · unfold MergeDelta
    refine ⟨?_, ?_, ?_, ?_, ?_, ?_, ?_, ?_, ?_, ?_, ?_, ?_⟩
    · show (migrateAttendance st.db.attendances dup.doc._id canonical.doc._id
        now st.s).2.attendanceMoved = st.s.attendanceMoved + mv
      exact hm
    · show (migrateAttendance st.db.attendances dup.doc._id canonical.doc._id
        now st.s).2.attendanceReplaced = st.s.attendanceReplaced + rp
      exact hr
    · show (migrateAttendance st.db.attendances dup.doc._id canonical.doc._id
        now st.s).2.attendanceKeptPrimary = st.s.attendanceKeptPrimary + kp
      exact hk
    · show (migrateAttendance st.db.attendances dup.doc._id canonical.doc._id
        now st.s).2.attendanceRemovedFromDuplicate
        = st.s.attendanceRemovedFromDuplicate + (rp + kp)
      exact hx
    · show (migrateAttendance st.db.attendances dup.doc._id canonical.doc._id
          now st.s).2.reportsMoved
          + (updateManyCount (fun r => r.classId == dup.doc._id)
              (fun r => { r with classId := canonical.doc._id }) st.db.reports).2
        = st.s.reportsMoved
          + st.db.reports.countP (fun r => r.classId == dup.doc._id)
      rw [hp, updateManyCount_modified dup.doc._id canonical.doc._id hne st.db.reports]
    · show (migrateAttendance st.db.attendances dup.doc._id canonical.doc._id
          now st.s).2.announcementsMoved
          + (updateManyCount (fun r => r.classId == dup.doc._id)
              (fun r => { r with classId := canonical.doc._id }) st.db.announcements).2
        = st.s.announcementsMoved
          + st.db.announcements.countP (fun r => r.classId == dup.doc._id)
      rw [hn, updateManyCount_modified dup.doc._id canonical.doc._id hne st.db.announcements]
    · show (migrateAttendance st.db.attendances dup.doc._id canonical.doc._id
        now st.s).2.duplicateClassroomsDeleted + 1
        = st.s.duplicateClassroomsDeleted + 1
      rw [hd]
    · exact hg
    · exact hi
    · exact hj
    · exact ht
    · exact hf
  · exact (retarget_counts dup.doc._id canonical.doc._id hne st.db.reports).1
  · exact fun c h1 h2 =>
      (retarget_counts dup.doc._id canonical.doc._id hne st.db.reports).2 c h1 h2
  · exact (retarget_counts dup.doc._id canonical.doc._id hne st.db.announcements).1
  · exact fun c h1 h2 =>
      (retarget_counts dup.doc._id canonical.doc._id hne st.db.announcements).2 c h1 h2

theorem map_eq_of_mem {α β : Type} (f g : α → β) (l : List α)
    (h : ∀ a ∈ l, f a = g a) : l.map f = l.map g := by
  induction l with
  | nil => rfl
  | cons x xs ih =>
    simp only [List.map_cons]
    rw [h x (List.mem_cons_self x xs), ih (fun a ha => h a (List.mem_cons_of_mem x ha))]

/-- The per-duplicate reference-count sums are unchanged by a merge step
that only touches the head duplicate's and the canonical's documents. -/
theorem sum_counts_congr {α : Type} (key : α → Nat) (canonical d : GroupDoc)
    (ds : List GroupDoc)
    (hall : ∀ d' ∈ ds, d'.doc._id ≠ canonical.doc._id)
    (hndd : d.doc._id ∉ ds.map (fun d => d.doc._id))
    (l' l : List α)
    (hc : ∀ c, c ≠ d.doc._id → c ≠ canonical.doc._id →
      l'.countP (fun a => key a == c) = l.countP (fun a => key a == c)) :
    (ds.map (fun d' => l'.countP (fun a => key a == d'.doc._id))).sum
      = (ds.map (fun d' => l.countP (fun a => key a == d'.doc._id))).sum := by
  rw [map_eq_of_mem _ _ ds ?_]
  intro d' hd'
  refine hc d'.doc._id ?_ (hall d' hd')
  intro h
  exact hndd (h ▸ List.mem_map_of_mem (fun d => d.doc._id) hd')

/-- Cumulative behaviour of the duplicates loop of `run` over a whole
group: classrooms shrink by the duplicate deletions, subjects and totals
fold independently, indexes are untouched, and the attendance / report /
announcement counts are conserved up to the logged conflict discards. -/
theorem foldl_merge_spec (canonical : GroupDoc) (normN : String) (now : Int) :
    ∀ (ds : List GroupDoc) (st : GroupState),
      (∀ d ∈ ds, d.doc._id ≠ canonical.doc._id) →
      ((ds.map (fun d => d.doc._id)).Nodup) →
      (st.db.attendances.map Attendance._id).Nodup →
      (ds.foldl (mergeDuplicate canonical normN now) st).db.indexes = st.db.indexes ∧
      (ds.foldl (mergeDuplicate canonical normN now) st).db.classrooms
        = ds.foldl (fun cl d => deleteFirst (fun c => c._id == d.doc._id) cl)
            st.db.classrooms ∧
      (ds.foldl (mergeDuplicate canonical normN now) st).merged
        = (ds.foldl (fun pr d => addSubjects pr (d.doc.subjects.getD []))
            (st.merged, st.seen)).1 ∧
      (ds.foldl (mergeDuplicate canonical normN now) st).seen
        = (ds.foldl (fun pr d => addSubjects pr (d.doc.subjects.getD []))
            (st.merged, st.seen)).2 ∧
      (ds.foldl (mergeDuplicate canonical normN now) st).total
        = ds.foldl (fun t d => max t (d.doc.totalStudents.getD 0)) st.total ∧
      ((ds.foldl (mergeDuplicate canonical normN now) st).db.attendances.map
        Attendance._id).Nodup ∧
      ∃ rp kp,
        (ds.foldl (mergeDuplicate canonical normN now) st).s.attendanceReplaced
          = st.s.attendanceReplaced + rp ∧
        (ds.foldl (mergeDuplicate canonical normN now) st).s.attendanceKeptPrimary
          = st.s.attendanceKeptPrimary + kp ∧
        (ds.foldl (mergeDuplicate canonical normN now) st).s.attendanceRemovedFromDuplicate
          = st.s.attendanceRemovedFromDuplicate + (rp + kp) ∧
        (ds.foldl (mergeDuplicate canonical normN now) st).db.attendances.countP
            (fun a => a.classId == canonical.doc._id) + (rp + kp)
          = st.db.attendances.countP (fun a => a.classId == canonical.doc._id)
            + (ds.map (fun d => st.db.attendances.countP
                (fun a => a.classId == d.doc._id))).sum ∧
        (ds.foldl (mergeDuplicate canonical normN now) st).db.attendances.length
            + (rp + kp)
          = st.db.attendances.length ∧
        (ds.foldl (mergeDuplicate canonical normN now) st).db.reports.countP
            (fun r => r.classId == canonical.doc._id)
          = st.db.reports.countP (fun r => r.classId == canonical.doc._id)
            + (ds.map (fun d => st.db.reports.countP
                (fun r => r.classId == d.doc._id))).sum ∧
        (ds.foldl (mergeDuplicate canonical normN now) st).db.announcements.countP
            (fun r => r.classId == canonical.doc._id)
          = st.db.announcements.countP (fun r => r.classId == canonical.doc._id)
            + (ds.map (fun d => st.db.announcements.countP
                (fun r => r.classId == d.doc._id))).sum ∧
        (∀ c, c ≠ canonical.doc._id → (∀ d ∈ ds, c ≠ d.doc._id) →
          (ds.foldl (mergeDuplicate canonical normN now) st).db.attendances.countP
              (fun a => a.classId == c)
            = st.db.attendances.countP (fun a => a.classId == c)) ∧
        (∀ c, c ≠ canonical.doc._id → (∀ d ∈ ds, c ≠ d.doc._id) →
          (ds.foldl (mergeDuplicate canonical normN now) st).db.reports.countP
              (fun r => r.classId == c)
            = st.db.reports.countP (fun r => r.classId == c)) ∧
        (∀ c, c ≠ canonical.doc._id → (∀ d ∈ ds, c ≠ d.doc._id) →
          (ds.foldl (mergeDuplicate canonical normN now) st).db.announcements.countP
              (fun r => r.classId == c)
            = st.db.announcements.countP (fun r => r.classId == c)) := by
  intro ds
  induction ds with
  | nil =>
    intro st hall hnd hN
    exact ⟨rfl, rfl, rfl, rfl, rfl, hN, 0, 0, by simp, by simp, by simp,
      by simp, by simp, by simp, by simp, fun c h1 h2 => rfl, fun c h1 h2 => rfl,
      fun c h1 h2 => rfl⟩
  | cons d ds ih =>
    intro st hall hnd hN
    have hned : d.doc._id ≠ canonical.doc._id := hall d (List.mem_cons_self d ds)
    have hndd : d.doc._id ∉ ds.map (fun d => d.doc._id) := by
      have := hnd
      simp only [List.map_cons, List.nodup_cons] at this
      exact this.1
    have hnd' : (ds.map (fun d => d.doc._id)).Nodup := by
      have := hnd
      simp only [List.map_cons, List.nodup_cons] at this
      exact this.2
    have hall' : ∀ d' ∈ ds, d'.doc._id ≠ canonical.doc._id :=
      fun d' hd' => hall d' (List.mem_cons_of_mem d hd')
    obtain ⟨hIdx1, hCls1, hMg1, hSeen1, hTot1, hN1, mv1, rp1, kp1, hDelta1, hSum1,
      hCanAtt1, hLenAtt1, hPresAtt1, hRep1, hPresRep1, hAnn1, hPresAnn1⟩ :=
      mergeDuplicate_spec canonical normN now st d hned hN
    obtain ⟨hm1, hr1, hk1, hx1, hrm1, ham1, hdd1, hgg1, hid1, hic1, his1, hif1⟩ := hDelta1
    obtain ⟨hIdx2, hCls2, hMg2, hSeen2, hTot2, hN2, rp2, kp2, hR2, hK2, hX2,
      hCan2, hLen2, hRep2, hAnn2, hPresAtt2, hPresRep2, hPresAnn2⟩ :=
      ih (mergeDuplicate canonical normN now st d) hall' hnd' hN1
    have hconvA := sum_counts_congr Attendance.classId canonical d ds hall' hndd
      (mergeDuplicate canonical normN now st d).db.attendances st.db.attendances hPresAtt1
    have hconvR := sum_counts_congr RefDoc.classId canonical d ds hall' hndd
      (mergeDuplicate canonical normN now st d).db.reports st.db.reports hPresRep1
    have hconvN := sum_counts_congr RefDoc.classId canonical d ds hall' hndd
      (mergeDuplicate canonical normN now st d).db.announcements st.db.announcements
      hPresAnn1
    rw [hconvA] at hCan2
    rw [hconvR] at hRep2
    rw [hconvN] at hAnn2
    refine ⟨?_, ?_, ?_, ?_, ?_, ?_, rp1 + rp2, kp1 + kp2, ?_, ?_, ?_, ?_, ?_, ?_, ?_,
      ?_, ?_, ?_⟩
    · simp only [List.foldl_cons]
      rw [hIdx2, hIdx1]
    · simp only [List.foldl_cons]
      rw [hCls2, hCls1]
    · simp only [List.foldl_cons]
      rw [hMg2, hMg1, hSeen1, Prod.mk.eta]
    · simp only [List.foldl_cons]
      rw [hSeen2, hMg1, hSeen1, Prod.mk.eta]
    · simp only [List.foldl_cons]
      rw [hTot2, hTot1]
    · simpa only [List.foldl_cons] using hN2
    · simp only [List.foldl_cons]
      rw [hR2, hr1]
      omega
    · simp only [List.foldl_cons]
      rw [hK2, hk1]
      omega
    · simp only [List.foldl_cons]
      rw [hX2, hx1]
      omega
    · simp only [List.foldl_cons, List.map_cons, List.sum_cons]
      omega
    · simp only [List.foldl_cons]
      omega
    · simp only [List.foldl_cons, List.map_cons, List.sum_cons]
      omega
    · simp only [List.foldl_cons, List.map_cons, List.sum_cons]
      omega
    · intro c h1 h2
      simp only [List.foldl_cons]
      rw [hPresAtt2 c h1 (fun d' hd' => h2 d' (List.mem_cons_of_mem d hd')),
        hPresAtt1 c (h2 d (List.mem_cons_self d ds)) h1]
    · intro c h1 h2
      simp only [List.foldl_cons]
      rw [hPresRep2 c h1 (fun d' hd' => h2 d' (List.mem_cons_of_mem d hd')),
        hPresRep1 c (h2 d (List.mem_cons_self d ds)) h1]
    · intro c h1 h2
      simp only [List.foldl_cons]
      rw [hPresAnn2 c h1 (fun d' hd' => h2 d' (List.mem_cons_of_mem d hd')),
        hPresAnn1 c (h2 d (List.mem_cons_self d ds)) h1]

/-! Lemmas about subject-list merging. -/

/-- Behaviour of folding one duplicate's subject list into the merged list:
the merged list only grows at the end, by subjects whose key was new, with
no key appended twice, and afterwards every folded subject's key occurs. -/
theorem addSubjects_spec (subs : List Subject) :
    ∀ (ms : List Subject) (seen : List String), seen = ms.map subjectKey →
      (addSubjects (ms, seen) subs).2 = (addSubjects (ms, seen) subs).1.map subjectKey ∧
      ∃ app, (addSubjects (ms, seen) subs).1 = ms ++ app ∧
        (∀ a ∈ app, a ∈ subs ∧ subjectKey a ∉ ms.map subjectKey) ∧
        (app.map subjectKey).Nodup ∧
        ∀ x ∈ subs, subjectKey x ∈ (ms ++ app).map subjectKey := by
  induction subs with
  | nil =>
    intro ms seen hseen
    refine ⟨hseen, [], by simp [addSubjects], by simp, by simp, by simp⟩
  | cons subj rest ih =>
    intro ms seen hseen
    by_cases hc : seen.contains (subjectKey subj) = true
    · have hstep : addSubjects (ms, seen) (subj :: rest) = addSubjects (ms, seen) rest := by
        simp only [addSubjects, List.foldl_cons, hc, if_true]
      have hmem : subjectKey subj ∈ ms.map subjectKey := by
        rw [← hseen]
        simpa using hc
      obtain ⟨h2, app, happ, hprop, hnd, hcomp⟩ := ih ms seen hseen
      rw [hstep]
      refine ⟨h2, app, happ, ?_, hnd, ?_⟩
      · intro a ha
        obtain ⟨ha1, ha2⟩ := hprop a ha
        exact ⟨List.mem_cons_of_mem subj ha1, ha2⟩
      · intro x hx
        rcases List.mem_cons.mp hx with hx | hx
        · subst hx
          rw [List.map_append]
          exact List.mem_append_left _ hmem
        · exact hcomp x hx
    · have hc' : seen.contains (subjectKey subj) = false := by simpa using hc
      have hnotmem : subjectKey subj ∉ ms.map subjectKey := by
        have h0 : subjectKey subj ∉ seen := by simpa using hc'
        rwa [hseen] at h0
      have hstep : addSubjects (ms, seen) (subj :: rest)
          = addSubjects (ms ++ [subj], seen ++ [subjectKey subj]) rest := by
        simp only [addSubjects, List.foldl_cons, hc', Bool.false_eq_true, if_false]
      have hseen' : seen ++ [subjectKey subj] = (ms ++ [subj]).map subjectKey := by
        rw [hseen, List.map_append, List.map_singleton]
      obtain ⟨h2, app', happ', hprop', hnd', hcomp'⟩ :=
        ih (ms ++ [subj]) (seen ++ [subjectKey subj]) hseen'
      rw [hstep]
      have hres : (addSubjects (ms ++ [subj], seen ++ [subjectKey subj]) rest).1
          = ms ++ (subj :: app') := by
        rw [happ', List.append_assoc, List.singleton_append]
      refine ⟨h2, subj :: app', hres, ?_, ?_, ?_⟩
      · intro a ha
        rcases List.mem_cons.mp ha with ha | ha
        · subst ha
          exact ⟨List.mem_cons_self a rest, hnotmem⟩
        · obtain ⟨ha1, ha2⟩ := hprop' a ha
          refine ⟨List.mem_cons_of_mem subj ha1, ?_⟩
          intro hmem
          exact ha2 (by rw [List.map_append]; exact List.mem_append_left _ hmem)
      · simp only [List.map_cons, List.nodup_cons]
        refine ⟨?_, hnd'⟩
        intro hmem
        simp only [List.mem_map] at hmem
        obtain ⟨a, ha, hka⟩ := hmem
        have := (hprop' a ha).2
        rw [List.map_append, List.map_singleton] at this
        exact this (List.mem_append_right _ (by rw [hka]; exact List.mem_singleton_self _))
      · intro x hx
        rcases List.mem_cons.mp hx with hx | hx
        · subst hx
          rw [List.map_append]
          exact List.mem_append_right _ (by simp)
        · have := hcomp' x hx
          rw [List.append_assoc, List.singleton_append] at this
          exact this

/-- Behaviour of folding all duplicates' subject lists in order. -/
theorem addSubjectsList_spec (subsList : List (List Subject)) :
    ∀ (ms : List Subject) (seen : List String), seen = ms.map subjectKey →
      (subsList.foldl addSubjects (ms, seen)).2
        = (subsList.foldl addSubjects (ms, seen)).1.map subjectKey ∧
      ∃ app, (subsList.foldl addSubjects (ms, seen)).1 = ms ++ app ∧
        (∀ a ∈ app, a ∈ subsList.flatten ∧ subjectKey a ∉ ms.map subjectKey) ∧
        (app.map subjectKey).Nodup ∧
        ∀ x ∈ subsList.flatten, subjectKey x ∈ (ms ++ app).map subjectKey := by
  induction subsList with
  | nil =>
    intro ms seen hseen
    refine ⟨hseen, [], by simp, by simp, by simp, by simp⟩
  | cons subs restL ih =>
    intro ms seen hseen
    obtain ⟨h2a, app1, happ1, hprop1, hnd1, hcomp1⟩ := addSubjects_spec subs ms seen hseen
    obtain ⟨h2b, app2, happ2, hprop2, hnd2, hcomp2⟩ :=
      ih (addSubjects (ms, seen) subs).1 (addSubjects (ms, seen) subs).2 h2a
    simp only [List.foldl_cons, Prod.mk.eta] at *
    rw [happ1] at happ2 hprop2 hcomp2
    refine ⟨h2b, app1 ++ app2, by rw [happ2, List.append_assoc], ?_, ?_, ?_⟩
    · intro a ha
      rcases List.mem_append.mp ha with ha | ha
      · obtain ⟨ha1, ha2⟩ := hprop1 a ha
        exact ⟨List.mem_flatten.mpr ⟨subs, List.mem_cons_self subs restL, ha1⟩, ha2⟩
      · obtain ⟨ha1, ha2⟩ := hprop2 a ha
        refine ⟨?_, ?_⟩
        · obtain ⟨l', hl', hal'⟩ := List.mem_flatten.mp ha1
          exact List.mem_flatten.mpr ⟨l', List.mem_cons_of_mem subs hl', hal'⟩
        · intro hmem
          exact ha2 (by rw [List.map_append]; exact List.mem_append_left _ hmem)
    · rw [List.map_append]
      refine List.Nodup.append hnd1 hnd2 ?_
      rw [List.disjoint_left]
      intro k hk1 hk2
      simp only [List.mem_map] at hk2
      obtain ⟨a, ha, hka⟩ := hk2
      have := (hprop2 a ha).2
      rw [List.map_append] at this
      exact this (List.mem_append_right _ (by rw [hka]; exact hk1))
    · intro x hx
      simp only [List.flatten_cons, List.mem_append] at hx
      rcases hx with hx | hx
      · have := hcomp1 x hx
        rw [← List.append_assoc, List.map_append]
        exact List.mem_append_left _ this
      · have := hcomp2 x hx
        rw [← List.append_assoc]
        exact this

/-- The fold computing the merged total-student count is the maximum. -/
theorem foldl_max_spec (ds : List GroupDoc) :
    ∀ t0 : Nat,
      t0 ≤ ds.foldl (fun t d => max t (d.doc.totalStudents.getD 0)) t0 ∧
      (∀ d ∈ ds, d.doc.totalStudents.getD 0
        ≤ ds.foldl (fun t d => max t (d.doc.totalStudents.getD 0)) t0) ∧
      (ds.foldl (fun t d => max t (d.doc.totalStudents.getD 0)) t0 = t0 ∨
        ∃ d ∈ ds, ds.foldl (fun t d => max t (d.doc.totalStudents.getD 0)) t0
          = d.doc.totalStudents.getD 0) := by
  induction ds with
  | nil => exact fun t0 => ⟨le_refl t0, by simp, Or.inl rfl⟩
  | cons d ds ih =>
    intro t0
    obtain ⟨hle, hall, hend⟩ := ih (max t0 (d.doc.totalStudents.getD 0))
    simp only [List.foldl_cons]
    refine ⟨le_trans (le_max_left _ _) hle, ?_, ?_⟩
    · intro d' hd'
      rcases List.mem_cons.mp hd' with h | h
      · subst h
        exact le_trans (le_max_right _ _) hle
      · exact hall d' h
    · rcases hend with h | ⟨d', hd', h⟩
      · rcases Nat.le_total t0 (d.doc.totalStudents.getD 0) with hmax | hmax
        · right
          refine ⟨d, List.mem_cons_self d ds, ?_⟩
          rw [h]
          exact Nat.max_eq_right hmax
        · left
          rw [h]
          exact Nat.max_eq_left hmax
      · right
        exact ⟨d', List.mem_cons_of_mem d hd', h⟩

/-! Group-level and run-level plumbing lemmas. -/

theorem filter_map_comm {α β : Type} (f : α → β) (q : β → Bool) (l : List α) :
    (l.filter (fun a => q (f a))).map f = (l.map f).filter q := by
  induction l with
  | nil => rfl
  | cons x xs ih =>
    simp only [List.filter_cons, List.map_cons]
    by_cases h : q (f x) = true
    · simp [h, ih]
    · have h' : q (f x) = false := by simpa using h
      simp [h', ih]

theorem countP_eq_of_mem {α : Type} (p q : α → Bool) (l : List α)
    (h : ∀ a ∈ l, p a = q a) : l.countP p = l.countP q := by
  induction l with
  | nil => rfl
  | cons x xs ih =>
    simp only [List.countP_cons, h x (List.mem_cons_self x xs),
      ih (fun a ha => h a (List.mem_cons_of_mem x ha))]

/-- Counting documents referencing any member id decomposes into the sum of
the per-member counts when the member ids are distinct. -/
theorem countP_contains_eq_sum {α : Type} (key : α → Nat) (ids : List Nat)
    (hnd : ids.Nodup) (l : List α) :
    l.countP (fun a => ids.contains (key a))
      = (ids.map (fun m => l.countP (fun a => key a == m))).sum := by
  induction ids with
  | nil =>
    simp only [List.map_nil, List.sum_nil]
    rw [countP_eq_of_mem (fun a => (([] : List Nat).contains (key a))) (fun _ => false) l
      (fun a _ => rfl)]
    simp
  | cons m ms ih =>
    obtain ⟨hm, hnd'⟩ := List.nodup_cons.mp hnd
    have hsplit : ∀ a ∈ l, ((m :: ms).contains (key a))
        = ((key a == m) || ms.contains (key a)) := by
      intro a _
      rw [List.contains_cons]
    rw [countP_eq_of_mem _ _ l hsplit,
      countP_or_disjoint _ _ l ?_, ih hnd', List.map_cons, List.sum_cons]
    intro a _ ⟨h1, h2⟩
    have hk : key a = m := by simpa using h1
    have : m ∈ ms := by
      have := h2
      rw [hk] at this
      simpa using this
    exact hm this

/-- Splitting the per-member count sum at one distinguished member. -/
theorem sum_map_split (ids : List Nat) (canId : Nat) (hnd : ids.Nodup)
    (hmem : canId ∈ ids) (g : Nat → Nat) :
    (ids.map g).sum = g canId + ((ids.filter (fun i => i ≠ canId)).map g).sum := by
  induction ids with
  | nil => simp at hmem
  | cons i is ih =>
    obtain ⟨hni, hnd'⟩ := List.nodup_cons.mp hnd
    by_cases h : i = canId
    · subst h
      have hfe : is.filter (fun j => j ≠ i) = is := by
        rw [List.filter_eq_self]
        intro j hj
        simp only [ne_eq, decide_eq_true_eq]
        intro hji
        exact hni (hji ▸ hj)
      have hhead : (decide (i ≠ i)) = false := by simp
      simp only [List.map_cons, List.sum_cons, List.filter_cons, hhead,
        Bool.false_eq_true, if_false, hfe]
    · have hmem' : canId ∈ is := by
        rcases List.mem_cons.mp hmem with h' | h'
        · exact absurd h'.symm h
        · exact h'
      have hhead : (decide (i ≠ canId)) = true := by simpa using h
      simp only [List.map_cons, List.sum_cons, List.filter_cons, hhead, if_true]
      rw [ih hnd' hmem']
      omega

theorem scoreDocs_map_doc (db : DB) (docs : List Classroom) :
    (scoreDocs db docs).map GroupDoc.doc = docs := by
  unfold scoreDocs
  rw [List.map_map]
  exact List.map_id docs

theorem scoreDocs_map_id (db : DB) (docs : List Classroom) :
    (scoreDocs db docs).map (fun d => d.doc._id) = docs.map Classroom._id := by
  unfold scoreDocs
  rw [List.map_map]
  rfl

/-- Merging duplicates never touches the index set. -/
theorem foldl_merge_indexes (canonical : GroupDoc) (normN : String) (now : Int) :
    ∀ (ds : List GroupDoc) (st : GroupState),
      (ds.foldl (mergeDuplicate canonical normN now) st).db.indexes = st.db.indexes := by
  intro ds
  induction ds with
  | nil => intro st; rfl
  | cons d ds ih =>
    intro st
    simp only [List.foldl_cons]
    rw [ih (mergeDuplicate canonical normN now st d)]
    rfl

/-- Processing a group never touches the index set. -/
theorem processGroup_indexes (db : DB) (normN : String) (docs : List Classroom)
    (now : Int) (s : Summary) :
    (processGroup db normN docs now s).1.indexes = db.indexes := by
  cases hc : chooseCanonical (scoreDocs db docs) with
  | none => simp only [processGroup, hc]
  | some can =>
    simp only [processGroup, hc]
    exact foldl_merge_indexes can normN now _ _

/-- The whole group-processing phase never touches the index set. -/
theorem foldGroups_indexes (now : Int) :
    ∀ (groups : List (String × List Classroom)) (p : DB × Summary),
      ((groups.foldl (fun p g => processGroup p.1 g.1 g.2 now p.2) p)).1.indexes
        = p.1.indexes := by
  intro groups
  induction groups with
  | nil => intro p; rfl
  | cons g gs ih =>
    intro p
    simp only [List.foldl_cons]
    rw [ih, processGroup_indexes]

/-- An index list returned by `ensureCaseInsensitiveUniqueIndex` always
contains the case-insensitive unique index. -/
theorem ensure_any_ci (indexes : List IndexSpec) (s : Summary) :
    ((ensureCaseInsensitiveUniqueIndex indexes s).1).any isCiUnique = true := by
  unfold ensureCaseInsensitiveUniqueIndex
  by_cases h : indexes.any isCiUnique = true
  · simp only [h, if_true]
  · have h' : indexes.any isCiUnique = false := by simpa using h
    simp only [h', Bool.false_eq_true, if_false]
    by_cases hd : indexes.any (fun idx => idx.name == "className_1") = true
    · simp only [hd, if_true, List.any_append]
      refine Bool.or_eq_true_iff.mpr (Or.inr ?_)
      decide
    · have hd' : indexes.any (fun idx => idx.name == "className_1") = false := by
        simpa using hd
      simp only [hd', Bool.false_eq_true, if_false, List.any_append]
      refine Bool.or_eq_true_iff.mpr (Or.inr ?_)
      decide

/-- When the case-insensitive unique index is already present, the installer
leaves the index set alone and only records the status. -/
theorem ensure_of_hasCi (indexes : List IndexSpec) (s : Summary)
    (h : indexes.any isCiUnique = true) :
    ensureCaseInsensitiveUniqueIndex indexes s
      = (indexes, { s with indexStatus := some "className_ci_unique already present" }) := by
  unfold ensureCaseInsensitiveUniqueIndex
  simp only [h, if_true]

/-- Projections of the duplicates fold that hold without any hypothesis:
classroom deletions, subject folding, and total folding are independent. -/
theorem foldl_merge_proj (canonical : GroupDoc) (normN : String) (now : Int) :
    ∀ (ds : List GroupDoc) (st : GroupState),
      (ds.foldl (mergeDuplicate canonical normN now) st).db.classrooms
        = ds.foldl (fun cl d => deleteFirst (fun c => c._id == d.doc._id) cl)
            st.db.classrooms ∧
      (ds.foldl (mergeDuplicate canonical normN now) st).merged
        = (ds.foldl (fun pr d => addSubjects pr (d.doc.subjects.getD []))
            (st.merged, st.seen)).1 ∧
      (ds.foldl (mergeDuplicate canonical normN now) st).seen
        = (ds.foldl (fun pr d => addSubjects pr (d.doc.subjects.getD []))
            (st.merged, st.seen)).2 ∧
      (ds.foldl (mergeDuplicate canonical normN now) st).total
        = ds.foldl (fun t d => max t (d.doc.totalStudents.getD 0)) st.total := by
  intro ds
  induction ds with
  | nil => exact fun st => ⟨rfl, rfl, rfl, rfl⟩
  | cons d rest ih =>
    intro st
    obtain ⟨h1, h2, h3, h4⟩ := ih (mergeDuplicate canonical normN now st d)
    simp only [List.foldl_cons]
    refine ⟨?_, ?_, ?_, ?_⟩
    · rw [h1]; rfl
    · rw [h2]; rfl
    · rw [h3]; rfl
    · rw [h4]; rfl

/-- Deleting duplicate classrooms does not move the canonical document. -/
theorem find?_foldl_deleteFirst (canId : Nat) :
    ∀ (ds : List GroupDoc), (∀ d ∈ ds, d.doc._id ≠ canId) →
      ∀ cl : List Classroom,
        ((ds.foldl (fun cl d => deleteFirst (fun c => c._id == d.doc._id) cl) cl).find?
          (fun c => c._id == canId))
        = cl.find? (fun c => c._id == canId) := by
  intro ds
  induction ds with
  | nil => exact fun _ cl => rfl
  | cons d rest ih =>
    intro hall cl
    simp only [List.foldl_cons]
    rw [ih (fun d' hd' => hall d' (List.mem_cons_of_mem d hd'))
      (deleteFirst (fun c => c._id == d.doc._id) cl)]
    refine find?_deleteFirst_disjoint _ _ cl ?_
    intro a _ hpa
    have h1 : a._id = d.doc._id := by simpa using hpa
    simp only [beq_eq_false_iff_ne, ne_eq, h1]
    exact hall d (List.mem_cons_self d rest)

/-- The canonical classroom document written back by `processGroup`: the
original document with trimmed name, folded total-student count and merged
subject list. -/
theorem processGroup_canonical_doc (db : DB) (normN : String)
    (docs : List Classroom) (now : Int) (s : Summary) (can : GroupDoc)
    (c0 : Classroom)
    (hcanon : chooseCanonical (scoreDocs db docs) = some can)
    (hfind : db.classrooms.find? (fun c => c._id == can.doc._id) = some c0) :
    (processGroup db normN docs now s).1.classrooms.find?
        (fun c => c._id == can.doc._id)
      = some { c0 with
          className := strTrim can.doc.className
          totalStudents := some (((scoreDocs db docs).filter
              (fun d => d.doc._id ≠ can.doc._id)).foldl
              (fun t d => max t (d.doc.totalStudents.getD 0))
              (can.doc.totalStudents.getD 0))
          subjects := some ((((scoreDocs db docs).filter
              (fun d => d.doc._id ≠ can.doc._id)).foldl
              (fun pr d => addSubjects pr (d.doc.subjects.getD []))
              (can.doc.subjects.getD [],
                (can.doc.subjects.getD []).map subjectKey)).1) } := by
  have hall : ∀ d ∈ (scoreDocs db docs).filter
      (fun d => d.doc._id ≠ can.doc._id), d.doc._id ≠ can.doc._id := by
    intro d hd
    have := (List.mem_filter.mp hd).2
    simpa using this
  have hcls : (((scoreDocs db docs).filter (fun d => d.doc._id ≠ can.doc._id)).foldl
        (mergeDuplicate can normN now)
        { db := db, s := s, merged := can.doc.subjects.getD [],
          seen := (can.doc.subjects.getD []).map subjectKey,
          total := can.doc.totalStudents.getD 0 }).db.classrooms
      = ((scoreDocs db docs).filter (fun d => d.doc._id ≠ can.doc._id)).foldl
          (fun cl d => deleteFirst (fun c => c._id == d.doc._id) cl) db.classrooms :=
    (foldl_merge_proj can normN now _ _).1
  have hmg : (((scoreDocs db docs).filter (fun d => d.doc._id ≠ can.doc._id)).foldl
        (mergeDuplicate can normN now)
        { db := db, s := s, merged := can.doc.subjects.getD [],
          seen := (can.doc.subjects.getD []).map subjectKey,
          total := can.doc.totalStudents.getD 0 }).merged
      = ((((scoreDocs db docs).filter (fun d => d.doc._id ≠ can.doc._id)).foldl
          (fun pr d => addSubjects pr (d.doc.subjects.getD []))
          (can.doc.subjects.getD [],
            (can.doc.subjects.getD []).map subjectKey))).1 :=
    (foldl_merge_proj can normN now _ _).2.1
  have htot : (((scoreDocs db docs).filter (fun d => d.doc._id ≠ can.doc._id)).foldl
        (mergeDuplicate can normN now)
        { db := db, s := s, merged := can.doc.subjects.getD [],
          seen := (can.doc.subjects.getD []).map subjectKey,
          total := can.doc.totalStudents.getD 0 }).total
      = ((scoreDocs db docs).filter (fun d => d.doc._id ≠ can.doc._id)).foldl
          (fun t d => max t (d.doc.totalStudents.getD 0))
          (can.doc.totalStudents.getD 0) :=
    (foldl_merge_proj can normN now _ _).2.2.2
  have hfindF : (((scoreDocs db docs).filter (fun d => d.doc._id ≠ can.doc._id)).foldl
        (mergeDuplicate can normN now)
        { db := db, s := s, merged := can.doc.subjects.getD [],
          seen := (can.doc.subjects.getD []).map subjectKey,
          total := can.doc.totalStudents.getD 0 }).db.classrooms.find?
        (fun c => c._id == can.doc._id)
      = some c0 := by
    rw [hcls, find?_foldl_deleteFirst can.doc._id _ hall db.classrooms]
    exact hfind
  have hpc0 := List.find?_some hfind
  simp only [processGroup, hcanon]
  rw [← hmg, ← htot]
  exact find?_updateFirst_head _ _ _ c0 hfindF hpc0

/-- Conservation across one duplicate group: references held by any group
member before the merge equal the canonical classroom's references after,
plus the attendance conflicts discarded by recency, each logged exactly
once in `attendanceReplaced` or `attendanceKeptPrimary`. -/
theorem processGroup_conservation (db : DB) (normN : String)
    (docs : List Classroom) (now : Int) (s : Summary) (can : GroupDoc)
    (hcanon : chooseCanonical (scoreDocs db docs) = some can)
    (hdocs : (docs.map Classroom._id).Nodup)
    (hatt : (db.attendances.map Attendance._id).Nodup) :
    ∃ rp kp,
      (processGroup db normN docs now s).2.attendanceReplaced
        = s.attendanceReplaced + rp ∧
      (processGroup db normN docs now s).2.attendanceKeptPrimary
        = s.attendanceKeptPrimary + kp ∧
      (processGroup db normN docs now s).2.attendanceRemovedFromDuplicate
        = s.attendanceRemovedFromDuplicate + (rp + kp) ∧
      db.attendances.countP (fun a => (docs.map Classroom._id).contains a.classId)
        + db.reports.countP (fun r => (docs.map Classroom._id).contains r.classId)
        + db.announcements.countP (fun r => (docs.map Classroom._id).contains r.classId)
      = (processGroup db normN docs now s).1.attendances.countP
            (fun a => a.classId == can.doc._id)
        + (processGroup db normN docs now s).1.reports.countP
            (fun r => r.classId == can.doc._id)
        + (processGroup db normN docs now s).1.announcements.countP
            (fun r => r.classId == can.doc._id)
        + (rp + kp) ∧
      (processGroup db normN docs now s).1.attendances.length + (rp + kp)
        = db.attendances.length := by
  have hall : ∀ d ∈ (scoreDocs db docs).filter
      (fun d => d.doc._id ≠ can.doc._id), d.doc._id ≠ can.doc._id := by
    intro d hd
    have := (List.mem_filter.mp hd).2
    simpa using this
  have hsub : (((scoreDocs db docs).filter (fun d => d.doc._id ≠ can.doc._id)).map
        (fun d => d.doc._id)).Sublist
      ((scoreDocs db docs).map (fun d => d.doc._id)) :=
    (List.filter_sublist _).map _
  have hnds : (((scoreDocs db docs).filter (fun d => d.doc._id ≠ can.doc._id)).map
      (fun d => d.doc._id)).Nodup :=
    hsub.nodup (by rw [scoreDocs_map_id]; exact hdocs)
  have hcanmem : can ∈ scoreDocs db docs := chooseCanonical_mem _ _ hcanon
  have hcanid : can.doc._id ∈ docs.map Classroom._id := by
    rw [← scoreDocs_map_id db docs]
    exact List.mem_map_of_mem _ hcanmem
  have hids : ((scoreDocs db docs).filter (fun d => d.doc._id ≠ can.doc._id)).map
        (fun d => d.doc._id)
      = (docs.map Classroom._id).filter (fun i => i ≠ can.doc._id) := by
    have h1 := filter_map_comm (fun d : GroupDoc => d.doc._id)
      (fun i => decide (i ≠ can.doc._id)) (scoreDocs db docs)
    rw [← scoreDocs_map_id db docs]
    exact h1
  obtain ⟨hIdx, hCls, hMg, hSeen, hTot, hN, rp, kp, hR, hK, hX, hCanA, hLenA,
      hRepE, hAnnE, hPA, hPR, hPN⟩ :=
    foldl_merge_spec can normN now
      ((scoreDocs db docs).filter (fun d => d.doc._id ≠ can.doc._id))
      { db := db, s := s, merged := can.doc.subjects.getD [],
        seen := (can.doc.subjects.getD []).map subjectKey,
        total := can.doc.totalStudents.getD 0 }
      hall hnds hatt
  simp only [] at hR hK hX hCanA hLenA hRepE hAnnE
  have hA := countP_contains_eq_sum Attendance.classId (docs.map Classroom._id)
    hdocs db.attendances
  have hAs := sum_map_split (docs.map Classroom._id) can.doc._id hdocs hcanid
    (fun m => db.attendances.countP (fun a => a.classId == m))
  have hRe := countP_contains_eq_sum RefDoc.classId (docs.map Classroom._id)
    hdocs db.reports
  have hRs := sum_map_split (docs.map Classroom._id) can.doc._id hdocs hcanid
    (fun m => db.reports.countP (fun r => r.classId == m))
  have hNe := countP_contains_eq_sum RefDoc.classId (docs.map Classroom._id)
    hdocs db.announcements
  have hNs := sum_map_split (docs.map Classroom._id) can.doc._id hdocs hcanid
    (fun m => db.announcements.countP (fun r => r.classId == m))
  have hsumA : (((scoreDocs db docs).filter (fun d => d.doc._id ≠ can.doc._id)).map
        (fun d => db.attendances.countP (fun a => a.classId == d.doc._id))).sum
      = (((docs.map Classroom._id).filter (fun i => i ≠ can.doc._id)).map
          (fun m => db.attendances.countP (fun a => a.classId == m))).sum := by
    rw [← hids, List.map_map]
    rfl
  have hsumR : (((scoreDocs db docs).filter (fun d => d.doc._id ≠ can.doc._id)).map
        (fun d => db.reports.countP (fun r => r.classId == d.doc._id))).sum
      = (((docs.map Classroom._id).filter (fun i => i ≠ can.doc._id)).map
          (fun m => db.reports.countP (fun r => r.classId == m))).sum := by
    rw [← hids, List.map_map]
    rfl
  have hsumN : (((scoreDocs db docs).filter (fun d => d.doc._id ≠ can.doc._id)).map
        (fun d => db.announcements.countP (fun r => r.classId == d.doc._id))).sum
      = (((docs.map Classroom._id).filter (fun i => i ≠ can.doc._id)).map
          (fun m => db.announcements.countP (fun r => r.classId == m))).sum := by
    rw [← hids, List.map_map]
    rfl
  simp only [processGroup, hcanon]
  refine ⟨rp, kp, hR, hK, hX, ?_, hLenA⟩
  rw [hA, hAs, hRe, hRs, hNe, hNs, ← hsumA, ← hsumR, ← hsumN]
  omega

/-- The run's outcome when the post-merge check still finds collisions. -/
theorem run_of_check_fail (db : DB) (now : Int)
    (h : 0 < (dupGroups (groupPhase db now).1.classrooms).length) :
    run db now = { db := (groupPhase db now).1, summary := (groupPhase db now).2,
                   error := some abortMessage } := by
  simp only [run]
  rw [if_pos h]

/-- The run's outcome when the post-merge check finds no collision. -/
theorem run_of_check_pass (db : DB) (now : Int)
    (h : ¬ 0 < (dupGroups (groupPhase db now).1.classrooms).length) :
    run db now
      = { db := { (groupPhase db now).1 with
            indexes := (ensureCaseInsensitiveUniqueIndex
              (groupPhase db now).1.indexes (groupPhase db now).2).1 }
          summary := { (ensureCaseInsensitiveUniqueIndex
              (groupPhase db now).1.indexes (groupPhase db now).2).2 with
            finalIndexes := some (ensureCaseInsensitiveUniqueIndex
              (groupPhase db now).1.indexes (groupPhase db now).2).1 }
          error := none } := by
  simp only [run]
  rw [if_neg h]

/-- A successful run ends with no surviving collision and with the
case-insensitive unique index present. -/
theorem run_success_pieces (db : DB) (now : Int)
    (h : (run db now).error = none) :
    dupGroups (run db now).db.classrooms = [] ∧
    (run db now).db.indexes.any isCiUnique = true := by
  by_cases hchk : 0 < (dupGroups (groupPhase db now).1.classrooms).length
  · rw [run_of_check_fail db now hchk] at h
    simp at h
  · have hz : (dupGroups (groupPhase db now).1.classrooms).length = 0 := by omega
    have hnil : dupGroups (groupPhase db now).1.classrooms = [] :=
      List.length_eq_zero.mp hz
    rw [run_of_check_pass db now hchk]
    exact ⟨hnil, ensure_any_ci _ _⟩

theorem deleteFirst_key_gone {α β : Type} [DecidableEq β] (g : α → β)
    (l : List α) (hN : (l.map g).Nodup) (x : α) (hx : x ∈ l) :
    ∀ b ∈ deleteFirst (fun a => g a == g x) l, g b ≠ g x := by
  induction l with
  | nil => simp at hx
  | cons a xs ih =>
    have hN' : (xs.map g).Nodup := (List.nodup_cons.mp (by simpa using hN)).2
    have hga : g a ∉ xs.map g := (List.nodup_cons.mp (by simpa using hN)).1
    by_cases hp : (g a == g x) = true
    · have hgax : g a = g x := by simpa using hp
      intro b hb
      simp only [deleteFirst, hp, if_true] at hb
      intro hbx
      exact hga (by rw [hgax, ← hbx]; exact List.mem_map_of_mem g hb)
    · have hp' : (g a == g x) = false := by simpa using hp
      have hax : x ∈ xs := by
        rcases List.mem_cons.mp hx with h | h
        · subst h; simp at hp'
        · exact h
      intro b hb
      simp only [deleteFirst, hp', Bool.false_eq_true, if_false] at hb
      rcases List.mem_cons.mp hb with h | h
      · subst h
        simpa using hp'
      · exact ih hN' hax b h

/-! Claim theorems, witnesses and counterexamples. -/

/-- C1: after a run that exits successfully, no two classroom records have
`className` values equal under the case-insensitive (trimmed, case-folded)
comparison the script uses. -/
theorem run_success_classNames_ci_distinct (db : DB) (now : Int)
    (h : (run db now).error = none) :
    (run db now).db.classrooms.Pairwise
      (fun c₁ c₂ => normName c₁.className ≠ normName c₂.className) := by
  have hnil := (run_success_pieces db now h).1
  have hnd := (dupGroups_eq_nil_iff _).mp hnil
  exact List.pairwise_map.mp hnd

/-- Witness for C1 on a concrete database holding the duplicate pair
"CSE B" / "cse b". -/
def dbC1 : DB :=
  { classrooms :=
      [ { _id := 1, className := "CSE B", subjects := none, totalStudents := none,
          createdAt := .t 0 }
      , { _id := 2, className := "cse b", subjects := none, totalStudents := none,
          createdAt := .t 1 } ]
    attendances := []
    reports := []
    announcements := []
    indexes := [] }

/-- C1 witness: the concrete run succeeds and leaves pairwise-distinct
normalised class names. -/
theorem run_success_classNames_ci_distinct_witness :
    (run dbC1 0).error = none ∧
    (run dbC1 0).db.classrooms.Pairwise
      (fun c₁ c₂ => normName c₁.className ≠ normName c₂.className) :=
  ⟨by decide, run_success_classNames_ci_distinct dbC1 0 (by decide)⟩

/-- C3: if classrooms with equal normalised names survive the merge phase,
the run raises the abort error and leaves every index untouched. -/
theorem run_aborts_without_touching_indexes (db : DB) (now : Int)
    (h : ¬ (run db now).db.classrooms.Pairwise
      (fun c₁ c₂ => normName c₁.className ≠ normName c₂.className)) :
    (run db now).error = some abortMessage ∧
    (run db now).db.indexes = db.indexes := by
  by_cases hchk : 0 < (dupGroups (groupPhase db now).1.classrooms).length
  · rw [run_of_check_fail db now hchk]
    refine ⟨rfl, ?_⟩
    show (groupPhase db now).1.indexes = db.indexes
    unfold groupPhase
    exact foldGroups_indexes now _ _
  · exfalso
    have hz : (dupGroups (groupPhase db now).1.classrooms).length = 0 := by omega
    have hnil : dupGroups (groupPhase db now).1.classrooms = [] :=
      List.length_eq_zero.mp hz
    refine h ?_
    rw [run_of_check_pass db now hchk]
    exact List.pairwise_map.mp ((dupGroups_eq_nil_iff _).mp hnil)

/-- Database with two classroom documents sharing one id, the model of the
states (concurrent writes, corrupted ids) the post-merge safety check is
designed to catch: the merge phase cannot drain such a group. -/
def dbC3 : DB :=
  { classrooms :=
      [ { _id := 1, className := "A", subjects := none, totalStudents := none,
          createdAt := .t 0 }
      , { _id := 1, className := "a", subjects := none, totalStudents := none,
          createdAt := .t 1 } ]
    attendances := []
    reports := []
    announcements := []
    indexes := [ { name := "className_1", unique := true, collation := none } ] }

/-- C3 witness: on the concrete colliding database the run aborts with the
script's error message and the classrooms index set is unchanged. -/
theorem run_aborts_without_touching_indexes_witness :
    ¬ (run dbC3 0).db.classrooms.Pairwise
      (fun c₁ c₂ => normName c₁.className ≠ normName c₂.className) ∧
    (run dbC3 0).error = some abortMessage ∧
    (run dbC3 0).db.indexes = dbC3.indexes :=
  ⟨by decide, run_aborts_without_touching_indexes dbC3 0 (by decide)⟩

/-- C5: a second run on the database a successful run leaves behind changes
nothing and reports zero duplicate groups found. -/
theorem run_idempotent (db : DB) (now now2 : Int)
    (h : (run db now).error = none) :
    (run (run db now).db now2).db = (run db now).db ∧
    (run (run db now).db now2).error = none ∧
    (run (run db now).db now2).summary.duplicateGroupsFound = 0 := by
  obtain ⟨hnil, hci⟩ := run_success_pieces db now h
  have hgp : groupPhase (run db now).db now2
      = ((run db now).db, { initSummary with duplicateGroupsFound := 0 }) := by
    unfold groupPhase
    rw [hnil]
    rfl
  have hchk : ¬ 0 < (dupGroups (groupPhase (run db now).db now2).1.classrooms).length := by
    rw [hgp]
    simp only []
    rw [hnil]
    simp
  have hens := ensure_of_hasCi (run db now).db.indexes
    { initSummary with duplicateGroupsFound := 0 } hci
  rw [run_of_check_pass (run db now).db now2 hchk, hgp]
  refine ⟨?_, ?_, ?_⟩
  · simp [hens]
  · rfl
  · simp [hens]

/-- C5 witness: the concrete duplicate database is fully repaired by one
run, and a second run is a no-op reporting zero duplicate groups. -/
def dbC5 : DB :=
  { classrooms :=
      [ { _id := 1, className := "Math 1", subjects := none, totalStudents := some 30,
          createdAt := .t 0 }
      , { _id := 2, className := " math 1", subjects := none, totalStudents := some 25,
          createdAt := .t 5 } ]
    attendances := [ { _id := 7, classId := 2, date := 11, periods := some [1],
                       updatedAt := .t 4 } ]
    reports := []
    announcements := []
    indexes := [ { name := "className_1", unique := true, collation := none } ] }

/-- C5 witness theorem. -/
theorem run_idempotent_witness :
    (run dbC5 3).error = none ∧
    ((run (run dbC5 3).db 9).db = (run dbC5 3).db ∧
     (run (run dbC5 3).db 9).error = none ∧
     (run (run dbC5 3).db 9).summary.duplicateGroupsFound = 0) :=
  ⟨by decide, run_idempotent dbC5 3 9 (by decide)⟩

/-- C7: after `migrateAttendance` the duplicate classroom owns zero
attendance documents — every snapshot record was retargeted or deleted. -/
theorem migrateAttendance_drains_duplicate (atts : List Attendance)
    (fromId toId : Nat) (now : Int) (s : Summary)
    (hne : fromId ≠ toId) (hN : (atts.map Attendance._id).Nodup) :
    ∀ a ∈ (migrateAttendance atts fromId toId now s).1, a.classId ≠ fromId := by
  obtain ⟨mv, rp, kp, hdelta, hsum, hN', hfil, hcntTo, hlen, hcntC⟩ :=
    migrateAttendance_spec atts fromId toId now s hne hN
  intro a ha heq
  have := List.filter_eq_nil_iff.mp hfil a ha
  simp [heq] at this

/-- C7 witness: a concrete duplicate with one movable and one conflicting
record ends owning no attendance documents. -/
theorem migrateAttendance_drains_duplicate_witness :
    (20 : Nat) ≠ 10 ∧
    (([ { _id := 1, classId := 10, date := 5, periods := some [1], updatedAt := .t 3 }
      , { _id := 2, classId := 20, date := 5, periods := some [7], updatedAt := .t 9 }
      , { _id := 3, classId := 20, date := 6, periods := some [2], updatedAt := .t 1 } ]
        : List Attendance).map Attendance._id).Nodup ∧
    ∀ a ∈ (migrateAttendance
        [ { _id := 1, classId := 10, date := 5, periods := some [1], updatedAt := .t 3 }
        , { _id := 2, classId := 20, date := 5, periods := some [7], updatedAt := .t 9 }
        , { _id := 3, classId := 20, date := 6, periods := some [2], updatedAt := .t 1 } ]
        20 10 99 initSummary).1, a.classId ≠ 20 :=
  ⟨by decide, by decide, migrateAttendance_drains_duplicate _ 20 10 99 initSummary
    (by decide) (by decide)⟩

/-- C2 (amended): in an attendance conflict where the duplicate-side record
is strictly newer, the canonical record for that date receives the newer
record's periods (defaulting to the empty list when the field is absent)
and its update timestamp when that field is present — the current time when
it is absent — and the duplicate-side document is deleted, with the
conflict logged in `attendanceReplaced`. -/
theorem migrateStep_conflict_newer_wins (atts : List Attendance) (s : Summary)
    (record existing : Attendance) (toId : Nat) (now : Int)
    (hN : (atts.map Attendance._id).Nodup)
    (hrec : record ∈ atts)
    (hfrom : record.classId ≠ toId)
    (hfind : atts.find? (fun a => a.classId == toId && a.date == record.date)
      = some existing)
    (hlt : asTime existing.updatedAt < asTime record.updatedAt) :
    (migrateStep toId now (atts, s) record).1.find?
        (fun a => a.classId == toId && a.date == record.date)
      = some { existing with
          periods := some (record.periods.getD [])
          updatedAt := if record.updatedAt.truthy then record.updatedAt else TS.t now } ∧
    (∀ a ∈ (migrateStep toId now (atts, s) record).1, a._id ≠ record._id) ∧
    (migrateStep toId now (atts, s) record).1.length + 1 = atts.length ∧
    (migrateStep toId now (atts, s) record).2
      = { s with attendanceReplaced := s.attendanceReplaced + 1
               , attendanceRemovedFromDuplicate := s.attendanceRemovedFromDuplicate + 1 } := by
  have hex_mem : existing ∈ atts := List.mem_of_find?_eq_some hfind
  have hexPred := List.find?_some hfind
  have hexTo : existing.classId = toId := by
    have := (Bool.and_eq_true _ _).mp hexPred
    simpa using this.1
  have hidNE : record._id ≠ existing._id := by
    intro h
    have heq : record = existing := List.inj_on_of_nodup_map hN hrec hex_mem h
    rw [heq] at hfrom
    exact hfrom hexTo
  have hRecIdSelf : (record._id == record._id) = true := by simp
  have hExIdSelf : (existing._id == existing._id) = true := by simp
  have huniqEx : ∀ a ∈ atts, (a._id == existing._id) = true → a = existing :=
    nodup_key_unique Attendance._id atts hN existing hex_mem
  have hgt : asTime record.updatedAt > asTime existing.updatedAt := hlt
  simp only [migrateStep, hfind, if_pos hgt]
  set fper : Attendance → Attendance := fun a =>
    { a with
      periods := some (record.periods.getD [])
      updatedAt := if record.updatedAt.truthy then record.updatedAt else TS.t now }
    with hfper
  set atts1 := updateFirst (fun a => a._id == existing._id) fper atts with hatts1
  have hmap1 : atts1.map Attendance._id = atts.map Attendance._id := by
    rw [hatts1, map_updateFirst Attendance._id (fun a => a._id == existing._id)
      fper (fun a => rfl) atts]
  have hN1 : (atts1.map Attendance._id).Nodup := by rw [hmap1]; exact hN
  have hrec1 : record ∈ atts1 := by
    rw [hatts1]
    refine mem_updateFirst_of_not _ _ atts record hrec ?_
    simp only [beq_eq_false_iff_ne, ne_eq]
    exact hidNE
  have huniq1 : ∀ a ∈ atts1, (a._id == record._id) = true → a = record :=
    nodup_key_unique Attendance._id atts1 hN1 record hrec1
  have hfind1 : atts1.find? (fun a => a.classId == toId && a.date == record.date)
      = some (fper existing) := by
    rw [hatts1]
    refine find?_updateFirst_of_find? _ _ fper atts existing hfind hExIdSelf huniqEx ?_
    exact hexPred
  refine ⟨?_, ?_, ?_, ?_⟩
  · rw [find?_deleteFirst_disjoint _ _ atts1 ?_, hfind1]
    intro a ha hpa
    have haR : a = record := huniq1 a ha hpa
    subst haR
    have h1 : (a.classId == toId) = false := by
      simp only [beq_eq_false_iff_ne, ne_eq]
      exact hfrom
    simp [h1]
  · exact deleteFirst_key_gone Attendance._id atts1 hN1 record hrec1
  · have h1 := length_deleteFirst (fun a => a._id == record._id) atts1
      record hrec1 hRecIdSelf
    have h2 : atts1.length = atts.length := by
      rw [hatts1, length_updateFirst]
    omega
  · trivial

/-- C2 counterexample data: the canonical-side record has a pre-1970 update
timestamp and the duplicate-side record's `updatedAt` field is absent
(treated as time 0), so the duplicate side is strictly newer. -/
def attsC2 : List Attendance :=
  [ { _id := 1, classId := 10, date := 5, periods := some [1], updatedAt := .t (-3) }
  , { _id := 2, classId := 20, date := 5, periods := some [7], updatedAt := .missing } ]

/-- C2 counterexample: with update timestamps T1 = −3 < T2 = 0, the merged
canonical record's `updatedAt` is the current wall-clock time (`new Date()`,
here 99), not the winning record's update timestamp — so the record does
not carry exactly the T2 record's timestamp, refuting the claim as
stated. -/
theorem attendance_conflict_timestamp_counterexample :
    asTime (TS.t (-3)) < asTime TS.missing ∧
    (migrateStep 10 99 (attsC2, initSummary)
        ({ _id := 2, classId := 20, date := 5, periods := some [7],
           updatedAt := .missing } : Attendance)).1.find?
        (fun a => a.classId == 10 && a.date == 5)
      = some { _id := 1, classId := 10, date := 5, periods := some [7],
               updatedAt := TS.t 99 } ∧
    TS.t 99 ≠ TS.missing := by
  decide

/-- C2 witness data. -/
def attsC2W : List Attendance :=
  [ { _id := 1, classId := 10, date := 5, periods := some [1], updatedAt := .t 3 }
  , { _id := 2, classId := 20, date := 5, periods := some [7], updatedAt := .t 9 } ]

/-- C2 witness: a concrete conflict where the duplicate-side record (T2 = 9)
beats the canonical side (T1 = 3). -/
theorem migrateStep_conflict_newer_wins_witness :
    asTime (TS.t 3) < asTime (TS.t 9) ∧
    ((migrateStep 10 99 (attsC2W, initSummary)
        ({ _id := 2, classId := 20, date := 5, periods := some [7],
           updatedAt := .t 9 } : Attendance)).1.find?
        (fun a => a.classId == 10 && a.date == 5)
      = some { _id := 1, classId := 10, date := 5,
               periods := some (some [7] |>.getD [])
               updatedAt := if (TS.t 9).truthy then TS.t 9 else TS.t 99 } ∧
    (∀ a ∈ (migrateStep 10 99 (attsC2W, initSummary)
        ({ _id := 2, classId := 20, date := 5, periods := some [7],
           updatedAt := .t 9 } : Attendance)).1, a._id ≠ 2) ∧
    (migrateStep 10 99 (attsC2W, initSummary)
        ({ _id := 2, classId := 20, date := 5, periods := some [7],
           updatedAt := .t 9 } : Attendance)).1.length + 1 = attsC2W.length ∧
    (migrateStep 10 99 (attsC2W, initSummary)
        ({ _id := 2, classId := 20, date := 5, periods := some [7],
           updatedAt := .t 9 } : Attendance)).2
      = { initSummary with
          attendanceReplaced := initSummary.attendanceReplaced + 1
          attendanceRemovedFromDuplicate :=
            initSummary.attendanceRemovedFromDuplicate + 1 }) :=
  ⟨by decide,
   migrateStep_conflict_newer_wins attsC2W initSummary
     { _id := 2, classId := 20, date := 5, periods := some [7], updatedAt := .t 9 }
     { _id := 1, classId := 10, date := 5, periods := some [1], updatedAt := .t 3 }
     10 99 (by decide) (by decide) (by decide) (by decide) (by decide)⟩

/-- C10: in an attendance conflict where the duplicate-side record is not
strictly newer — timestamps missing or unparseable both count as time 0 —
the canonical-side record is left entirely unchanged, the duplicate-side
document is deleted, and the conflict is logged in
`attendanceKeptPrimary`. -/
theorem migrateStep_conflict_primary_kept (atts : List Attendance) (s : Summary)
    (record existing : Attendance) (toId : Nat) (now : Int)
    (hN : (atts.map Attendance._id).Nodup)
    (hrec : record ∈ atts)
    (hfrom : record.classId ≠ toId)
    (hfind : atts.find? (fun a => a.classId == toId && a.date == record.date)
      = some existing)
    (hle : asTime record.updatedAt ≤ asTime existing.updatedAt) :
    asTime TS.missing = 0 ∧ asTime TS.invalid = 0 ∧
    (migrateStep toId now (atts, s) record).1.find?
        (fun a => a.classId == toId && a.date == record.date) = some existing ∧
    (∀ a ∈ (migrateStep toId now (atts, s) record).1, a._id ≠ record._id) ∧
    (migrateStep toId now (atts, s) record).1.length + 1 = atts.length ∧
    (migrateStep toId now (atts, s) record).2
      = { s with attendanceKeptPrimary := s.attendanceKeptPrimary + 1
               , attendanceRemovedFromDuplicate := s.attendanceRemovedFromDuplicate + 1 } := by
  have hRecIdSelf : (record._id == record._id) = true := by simp
  have huniq : ∀ a ∈ atts, (a._id == record._id) = true → a = record :=
    nodup_key_unique Attendance._id atts hN record hrec
  have hngt : ¬ asTime record.updatedAt > asTime existing.updatedAt := not_lt.mpr hle
  simp only [migrateStep, hfind, if_neg hngt]
  refine ⟨rfl, rfl, ?_, ?_, ?_, ?_⟩
  · rw [find?_deleteFirst_disjoint _ _ atts ?_, hfind]
    intro a ha hpa
    have haR : a = record := huniq a ha hpa
    subst haR
    have h1 : (a.classId == toId) = false := by
      simp only [beq_eq_false_iff_ne, ne_eq]
      exact hfrom
    simp [h1]
  · exact deleteFirst_key_gone Attendance._id atts hN record hrec
  · exact length_deleteFirst (fun a => a._id == record._id) atts record hrec hRecIdSelf
  · trivial

/-- C10 witness data: the duplicate-side record's `updatedAt` is missing
(time 0), the canonical side has time 8. -/
def attsC10 : List Attendance :=
  [ { _id := 1, classId := 10, date := 5, periods := some [1], updatedAt := .t 8 }
  , { _id := 2, classId := 20, date := 5, periods := some [7], updatedAt := .missing } ]

/-- C10 witness theorem. -/
theorem migrateStep_conflict_primary_kept_witness :
    asTime TS.missing ≤ asTime (TS.t 8) ∧
    (asTime TS.missing = 0 ∧ asTime TS.invalid = 0 ∧
    (migrateStep 10 99 (attsC10, initSummary)
        ({ _id := 2, classId := 20, date := 5, periods := some [7],
           updatedAt := .missing } : Attendance)).1.find?
        (fun a => a.classId == 10 && a.date == 5)
      = some { _id := 1, classId := 10, date := 5, periods := some [1],
               updatedAt := TS.t 8 } ∧
    (∀ a ∈ (migrateStep 10 99 (attsC10, initSummary)
        ({ _id := 2, classId := 20, date := 5, periods := some [7],
           updatedAt := .missing } : Attendance)).1, a._id ≠ 2) ∧
    (migrateStep 10 99 (attsC10, initSummary)
        ({ _id := 2, classId := 20, date := 5, periods := some [7],
           updatedAt := .missing } : Attendance)).1.length + 1 = attsC10.length ∧
    (migrateStep 10 99 (attsC10, initSummary)
        ({ _id := 2, classId := 20, date := 5, periods := some [7],
           updatedAt := .missing } : Attendance)).2
      = { initSummary with
          attendanceKeptPrimary := initSummary.attendanceKeptPrimary + 1
          attendanceRemovedFromDuplicate :=
            initSummary.attendanceRemovedFromDuplicate + 1 }) :=
  ⟨by decide,
   migrateStep_conflict_primary_kept attsC10 initSummary
     { _id := 2, classId := 20, date := 5, periods := some [7], updatedAt := .missing }
     { _id := 1, classId := 10, date := 5, periods := some [1], updatedAt := .t 8 }
     10 99 (by decide) (by decide) (by decide) (by decide) (by decide)⟩

/-- C4 (amended): `chooseCanonical` always returns a member that no other
member strictly beats under the priority order (reference count, then
subject count, then earlier creation); and whenever no two members tie on
all three keys, the same member is selected for every permutation of the
input list. -/
theorem chooseCanonical_max_det (l l' : List GroupDoc) (m : GroupDoc)
    (hperm : l.Perm l') (hsel : chooseCanonical l = some m) :
    (m ∈ l ∧ ∀ x ∈ l, ¬ cmpDocs x m < 0) ∧
    ((∀ x ∈ l, ∀ y ∈ l, cmpDocs x y = 0 → x = y) →
      chooseCanonical l' = some m) := by
  have hmem := chooseCanonical_mem l m hsel
  have hmin := chooseCanonical_minimal l m hsel
  refine ⟨⟨hmem, hmin⟩, ?_⟩
  intro hinj
  have hstrict : ∀ x ∈ l, x = m ∨ cmpDocs m x < 0 := by
    intro x hx
    by_cases hxm : x = m
    · left; exact hxm
    · right
      have h1 := hmin x hx
      have h2 : cmpDocs x m ≠ 0 := fun h0 => hxm (hinj x hx m hmem h0)
      have h3 := cmpDocs_neg m x
      omega
  refine chooseCanonical_eq_of_strict l' m (hperm.mem_iff.mp hmem) ?_
  intro x hx
  exact hstrict x (hperm.mem_iff.mpr hx)

/-- Two group members with identical reference counts, subject lists and
creation timestamps but different ids. -/
def gdA : GroupDoc :=
  { doc := { _id := 1, className := "X", subjects := none, totalStudents := none,
             createdAt := .t 0 }
    refs := { attendance := 0, reports := 0, announcements := 0, total := 0 } }

/-- The tie partner of `gdA`. -/
def gdB : GroupDoc :=
  { doc := { _id := 2, className := "Y", subjects := none, totalStudents := none,
             createdAt := .t 0 }
    refs := { attendance := 0, reports := 0, announcements := 0, total := 0 } }

/-- C4 counterexample: on a fully tied group the selected canonical depends
on the input order, refuting permutation invariance as claimed. -/
theorem chooseCanonical_not_permutation_invariant :
    [gdA, gdB].Perm [gdB, gdA] ∧
    chooseCanonical [gdA, gdB] = some gdA ∧
    chooseCanonical [gdB, gdA] = some gdB ∧
    gdA ≠ gdB :=
  ⟨List.Perm.swap gdB gdA [], by decide, by decide, by decide⟩

/-- A member with the strictly highest total reference count. -/
def gdC : GroupDoc :=
  { doc := { _id := 3, className := "X", subjects := none, totalStudents := none,
             createdAt := .t 7 }
    refs := { attendance := 3, reports := 1, announcements := 1, total := 5 } }

/-- A member with a lower total reference count than `gdC`. -/
def gdD : GroupDoc :=
  { doc := { _id := 4, className := "Y", subjects := none, totalStudents := none,
             createdAt := .t 1 }
    refs := { attendance := 2, reports := 1, announcements := 0, total := 3 } }

/-- C4 witness: on a group with distinct priority keys, the most-referenced
member is selected, it is maximal, and the permuted input selects it too. -/
theorem chooseCanonical_max_det_witness :
    chooseCanonical [gdC, gdD] = some gdC ∧
    ((gdC ∈ [gdC, gdD] ∧ ∀ x ∈ [gdC, gdD], ¬ cmpDocs x gdC < 0) ∧
     ((∀ x ∈ [gdC, gdD], ∀ y ∈ [gdC, gdD], cmpDocs x y = 0 → x = y) →
       chooseCanonical [gdD, gdC] = some gdC)) :=
  ⟨by decide,
   chooseCanonical_max_det [gdC, gdD] [gdD, gdC] gdC
     (List.Perm.swap gdD gdC []) (by decide)⟩

/-- C9 (amended): after a duplicate group is finalized, the canonical
classroom's stored `className` is the trimmed form of its original
`className`; the stored value is not case-folded. -/
theorem processGroup_writes_trimmed_className (db : DB) (normN : String)
    (docs : List Classroom) (now : Int) (s : Summary) (can : GroupDoc)
    (c0 : Classroom)
    (hcanon : chooseCanonical (scoreDocs db docs) = some can)
    (hfind : db.classrooms.find? (fun c => c._id == can.doc._id) = some c0) :
    ∃ c', (processGroup db normN docs now s).1.classrooms.find?
        (fun c => c._id == can.doc._id) = some c' ∧
      c'.className = strTrim can.doc.className :=
  ⟨_, processGroup_canonical_doc db normN docs now s can c0 hcanon hfind, rfl⟩

/-- Concrete database with the duplicate pair "CSE B" / "cse b"; the
canonical member keeps its original capitals. -/
def dbC9 : DB :=
  { classrooms :=
      [ { _id := 1, className := "CSE B", subjects := none, totalStudents := none,
          createdAt := .t 0 }
      , { _id := 2, className := "cse b", subjects := none, totalStudents := none,
          createdAt := .t 1 } ]
    attendances := []
    reports := []
    announcements := []
    indexes := [] }

/-- C9 counterexample: the full run on `dbC9` succeeds and stores
"CSE B" — the trimmed original — while the normalized (trimmed and
case-folded) form would be "cse b"; the stored name is not the normalized
form, refuting the claim as stated. -/
theorem className_not_case_folded_counterexample :
    (run dbC9 0).error = none ∧
    (run dbC9 0).db.classrooms.map Classroom.className = ["CSE B"] ∧
    normName "CSE B" = "cse b" ∧
    ("CSE B" : String) ≠ "cse b" := by
  decide

/-- The canonical member of the `dbC9` group as scored by the engine. -/
def canC9 : GroupDoc :=
  { doc := { _id := 1, className := "CSE B", subjects := none, totalStudents := none,
             createdAt := .t 0 }
    refs := { attendance := 0, reports := 0, announcements := 0, total := 0 } }

/-- C9 witness: on the concrete group the canonical document ends up with
className "CSE B", the trimmed (not case-folded) original. -/
theorem processGroup_writes_trimmed_className_witness :
    chooseCanonical (scoreDocs dbC9 dbC9.classrooms) = some canC9 ∧
    (∃ c', (processGroup dbC9 "cse b" dbC9.classrooms 0 initSummary).1.classrooms.find?
        (fun c => c._id == canC9.doc._id) = some c' ∧
      c'.className = strTrim canC9.doc.className) :=
  ⟨by decide,
   processGroup_writes_trimmed_className dbC9 "cse b" dbC9.classrooms 0 initSummary
     canC9
     { _id := 1, className := "CSE B", subjects := none, totalStudents := none,
       createdAt := .t 0 }
     (by decide) (by decide)⟩

/-- C8: the merged subject list written on the canonical classroom is the
canonical's own subjects followed by exactly those duplicate-side subjects
whose normalized (name, code) key is new, with no key appended twice, and
the merged total-student count is the maximum over the canonical and all
merged duplicates. -/
theorem processGroup_merged_subjects (db : DB) (normN : String)
    (docs : List Classroom) (now : Int) (s : Summary) (can : GroupDoc)
    (c0 : Classroom)
    (hcanon : chooseCanonical (scoreDocs db docs) = some can)
    (hfind : db.classrooms.find? (fun c => c._id == can.doc._id) = some c0) :
    ∃ app T,
      (processGroup db normN docs now s).1.classrooms.find?
          (fun c => c._id == can.doc._id)
        = some { c0 with
            className := strTrim can.doc.className
            totalStudents := some T
            subjects := some ((can.doc.subjects.getD []) ++ app) } ∧
      (app.map subjectKey).Nodup ∧
      (∀ a ∈ app, subjectKey a ∉ (can.doc.subjects.getD []).map subjectKey) ∧
      (∀ a ∈ app, a ∈ (((scoreDocs db docs).filter
          (fun d => d.doc._id ≠ can.doc._id)).map
          (fun d => d.doc.subjects.getD [])).flatten) ∧
      (∀ x ∈ (((scoreDocs db docs).filter
          (fun d => d.doc._id ≠ can.doc._id)).map
          (fun d => d.doc.subjects.getD [])).flatten,
        subjectKey x ∈ ((can.doc.subjects.getD []) ++ app).map subjectKey) ∧
      can.doc.totalStudents.getD 0 ≤ T ∧
      (∀ d ∈ (scoreDocs db docs).filter (fun d => d.doc._id ≠ can.doc._id),
        d.doc.totalStudents.getD 0 ≤ T) ∧
      (T = can.doc.totalStudents.getD 0 ∨
        ∃ d ∈ (scoreDocs db docs).filter (fun d => d.doc._id ≠ can.doc._id),
          T = d.doc.totalStudents.getD 0) := by
  have hdoc := processGroup_canonical_doc db normN docs now s can c0 hcanon hfind
  obtain ⟨h2, app, happ, hprop, hnd, hcomp⟩ :=
    addSubjectsList_spec (((scoreDocs db docs).filter
        (fun d => d.doc._id ≠ can.doc._id)).map (fun d => d.doc.subjects.getD []))
      (can.doc.subjects.getD []) ((can.doc.subjects.getD []).map subjectKey) rfl
  have hconv := List.foldl_map (fun d : GroupDoc => d.doc.subjects.getD [])
    addSubjects
    ((scoreDocs db docs).filter (fun d => d.doc._id ≠ can.doc._id))
    (can.doc.subjects.getD [], (can.doc.subjects.getD []).map subjectKey)
  rw [hconv] at happ
  obtain ⟨hle0, hled, hcase⟩ := foldl_max_spec
    ((scoreDocs db docs).filter (fun d => d.doc._id ≠ can.doc._id))
    (can.doc.totalStudents.getD 0)
  refine ⟨app, _, ?_, hnd, fun a ha => (hprop a ha).2, fun a ha => (hprop a ha).1,
    hcomp, hle0, hled, hcase⟩
  rw [← happ]
  exact hdoc

/-- Concrete database for the subject-merge witness: the duplicate carries
one subject that collides on normalized key and one genuinely new one. -/
def dbC8 : DB :=
  { classrooms :=
      [ { _id := 1, className := "CSE B",
          subjects := some [ { name := some "Math", code := some "M1" } ],
          totalStudents := some 30, createdAt := .t 0 }
      , { _id := 2, className := "cse b",
          subjects := some [ { name := some " math ", code := some "m1" }
                           , { name := some "Phys", code := some "P1" } ],
          totalStudents := some 45, createdAt := .t 1 } ]
    attendances := [ { _id := 9, classId := 1, date := 3, periods := some [],
                       updatedAt := .t 0 } ]
    reports := []
    announcements := []
    indexes := [] }

/-- The canonical member of the `dbC8` group as scored by the engine. -/
def canC8 : GroupDoc :=
  { doc := { _id := 1, className := "CSE B",
             subjects := some [ { name := some "Math", code := some "M1" } ],
             totalStudents := some 30, createdAt := .t 0 }
    refs := { attendance := 1, reports := 0, announcements := 0, total := 1 } }

/-- C8 witness theorem. -/
theorem processGroup_merged_subjects_witness :
    chooseCanonical (scoreDocs dbC8 dbC8.classrooms) = some canC8 ∧
    (∃ app T,
      (processGroup dbC8 "cse b" dbC8.classrooms 0 initSummary).1.classrooms.find?
          (fun c => c._id == canC8.doc._id)
        = some { _id := 1, className := strTrim canC8.doc.className,
                 subjects := some ((canC8.doc.subjects.getD []) ++ app),
                 totalStudents := some T, createdAt := TS.t 0 } ∧
      (app.map subjectKey).Nodup ∧
      (∀ a ∈ app, subjectKey a ∉ (canC8.doc.subjects.getD []).map subjectKey) ∧
      (∀ a ∈ app, a ∈ (((scoreDocs dbC8 dbC8.classrooms).filter
          (fun d => d.doc._id ≠ canC8.doc._id)).map
          (fun d => d.doc.subjects.getD [])).flatten) ∧
      (∀ x ∈ (((scoreDocs dbC8 dbC8.classrooms).filter
          (fun d => d.doc._id ≠ canC8.doc._id)).map
          (fun d => d.doc.subjects.getD [])).flatten,
        subjectKey x ∈ ((canC8.doc.subjects.getD []) ++ app).map subjectKey) ∧
      canC8.doc.totalStudents.getD 0 ≤ T ∧
      (∀ d ∈ (scoreDocs dbC8 dbC8.classrooms).filter
          (fun d => d.doc._id ≠ canC8.doc._id),
        d.doc.totalStudents.getD 0 ≤ T) ∧
      (T = canC8.doc.totalStudents.getD 0 ∨
        ∃ d ∈ (scoreDocs dbC8 dbC8.classrooms).filter
            (fun d => d.doc._id ≠ canC8.doc._id),
          T = d.doc.totalStudents.getD 0)) :=
  ⟨by decide,
   processGroup_merged_subjects dbC8 "cse b" dbC8.classrooms 0 initSummary canC8
     { _id := 1, className := "CSE B",
       subjects := some [ { name := some "Math", code := some "M1" } ],
       totalStudents := some 30, createdAt := .t 0 }
     (by decide) (by decide)⟩

/-- Concrete database for the conservation witness: one duplicate group
with a date conflict, movable attendance, reports and announcements. -/
def dbC6 : DB :=
  { classrooms :=
      [ { _id := 1, className := "CSE B", subjects := none, totalStudents := some 30,
          createdAt := .t 0 }
      , { _id := 2, className := "cse b", subjects := none, totalStudents := some 20,
          createdAt := .t 1 } ]
    attendances :=
      [ { _id := 11, classId := 1, date := 5, periods := some [1], updatedAt := .t 3 }
      , { _id := 12, classId := 2, date := 5, periods := some [2], updatedAt := .t 9 }
      , { _id := 13, classId := 2, date := 6, periods := some [3], updatedAt := .t 1 } ]
    reports := [ { _id := 21, classId := 2 }, { _id := 22, classId := 1 } ]
    announcements := [ { _id := 31, classId := 1 } ]
    indexes := [] }

/-- The canonical member of the `dbC6` group as scored by the engine. -/
def canC6 : GroupDoc :=
  { doc := { _id := 1, className := "CSE B", subjects := none, totalStudents := some 30,
             createdAt := .t 0 }
    refs := { attendance := 1, reports := 1, announcements := 1, total := 3 } }

/-- C6 witness theorem. -/
theorem processGroup_conservation_witness :
    chooseCanonical (scoreDocs dbC6 dbC6.classrooms) = some canC6 ∧
    (∃ rp kp,
      (processGroup dbC6 "cse b" dbC6.classrooms 0 initSummary).2.attendanceReplaced
        = initSummary.attendanceReplaced + rp ∧
      (processGroup dbC6 "cse b" dbC6.classrooms 0 initSummary).2.attendanceKeptPrimary
        = initSummary.attendanceKeptPrimary + kp ∧
      (processGroup dbC6 "cse b" dbC6.classrooms 0 initSummary).2.attendanceRemovedFromDuplicate
        = initSummary.attendanceRemovedFromDuplicate + (rp + kp) ∧
      dbC6.attendances.countP
          (fun a => (dbC6.classrooms.map Classroom._id).contains a.classId)
        + dbC6.reports.countP
            (fun r => (dbC6.classrooms.map Classroom._id).contains r.classId)
        + dbC6.announcements.countP
            (fun r => (dbC6.classrooms.map Classroom._id).contains r.classId)
      = (processGroup dbC6 "cse b" dbC6.classrooms 0 initSummary).1.attendances.countP
            (fun a => a.classId == canC6.doc._id)
        + (processGroup dbC6 "cse b" dbC6.classrooms 0 initSummary).1.reports.countP
            (fun r => r.classId == canC6.doc._id)
        + (processGroup dbC6 "cse b" dbC6.classrooms 0 initSummary).1.announcements.countP
            (fun r => r.classId == canC6.doc._id)
        + (rp + kp) ∧
      (processGroup dbC6 "cse b" dbC6.classrooms 0 initSummary).1.attendances.length
          + (rp + kp)
        = dbC6.attendances.length) :=
  ⟨by decide,
   processGroup_conservation dbC6 "cse b" dbC6.classrooms 0 initSummary canC6
     (by decide) (by decide) (by decide)⟩

end ClassDedupe
